import Mathlib

/-!
Shallow embedding of the scheduling engine of `schedule-analysis.js`
(the `game-scheduler` repository): seeded RNG, pair ledger, slot
assigner (`selectPair` / `assignGame`), attempt orchestrator
(`tryGenerateSchedule`), retry orchestrator (`generateBalancedSchedule`),
home/away optimizer (`optimizeHomeAwayBalance`) and the verification
utilities, together with theorems settling the frozen claims.

Modelling conventions:
* JS numbers that hold 32-bit bit patterns (the seeded RNG) are `Nat`
  values `< 2^32`, with `% 2^32` where JS coerces via `ToInt32`/`ToUint32`;
  the signed/unsigned distinction is irrelevant because only the bit
  pattern flows onward.
* Fractional JS numbers are exact rationals here (the literals 0.05,
  0.02, 0.2, 2.0 and the deviate `r / 2^32`).  Every such quantity in
  the engine has denominator dividing `100 * 2^32`, so the executable
  definitions carry the exact integer numerators scaled by that fixed
  denominator (comparisons are unchanged by the positive scaling, and
  `u < 0.5` / `floor(u * n)` have the exact integer forms
  `r < 2^31` / `r * n / 2^32`); the rational-valued specification of the
  score is related to the scaled form by `pairScoreNum_eq_spec`.
* JS `Map`s are association lists preserving insertion order (JS `Map`
  iteration order); `Set`s are first-occurrence-deduplicated lists.
* `map.get(k)` at a key the caller always populates is modelled with a
  default value (`lookupD`); the JS `undefined`/`NaN` propagation on
  absent keys is observable in no claim (it can only reach team names
  injected by malformed locks, which never feed back into pair data).
* `Array.prototype.sort` (stable per ES2019) is modelled by
  `List.insertionSort` with a reflexive-on-ties relation, which is the
  same stable sort.
-/

/-- Lookup in an insertion-ordered association list, with default. -/
def lookupD {α : Type} (m : List (String × α)) (k : String) (d : α) : α :=
  match m.find? (fun p => p.1 == k) with
  | some p => p.2
  | none => d

/-- Optional lookup in an association list (JS `map.get`). -/
def lookupOpt {α : Type} (m : List (String × α)) (k : String) : Option α :=
  (m.find? (fun p => p.1 == k)).map Prod.snd

/-- JS `map.set(k, v)`: replace the first binding of `k`, else append
(keeps `Map` insertion order). -/
def setKey {α : Type} : List (String × α) → String → α → List (String × α)
  | [], k, v => [(k, v)]
  | p :: rest, k, v => if p.1 == k then (k, v) :: rest else p :: setKey rest k v

/-- `map.set(k, f(map.get(k) ?? d))` in one step. -/
def upsert {α : Type} (m : List (String × α)) (k : String) (d : α) (f : α → α) :
    List (String × α) :=
  setKey m k (f (lookupD m k d))

/-- JS `new Set(list)` / `Array.from(new Set(list))`: deduplicate keeping
the first occurrence of each element. -/
def dedupFirst : List String → List String
  | [] => []
  | x :: xs => x :: (dedupFirst xs).filter (fun y => ¬ (y == x))

/-- Lookup in a `Nat`-keyed association list (lock requirement maps). -/
def lookupNat {α : Type} (m : List (Nat × α)) (k : Nat) : Option α :=
  (m.find? (fun p => p.1 == k)).map Prod.snd

/-! ## Seeded RNG (`hashSeed` / `createSeededRng`)

`hashSeed` mixes the seed string through an avalanche hash into a 32-bit
state; each generator call advances the state by `0x6D2B79F5` and
extracts a uniform deviate `r / 2^32`.  All values are 32-bit bit
patterns represented as `Nat < 2^32`. -/

/-- 2^32, the modulus of all 32-bit coercions. -/
def pow32 : Nat := 4294967296

/-- `Math.imul`: 32-bit product (bit pattern). -/
def imul32 (a b : Nat) : Nat := (a * b) % pow32

/-- `(h << 13) | (h >>> 19)`: rotate a 32-bit pattern left by 13. -/
def rotl13 (h : Nat) : Nat := ((h <<< 13) % pow32) ||| (h >>> 19)

/-- One character step of `hashSeed`. -/
def hashStep (h c : Nat) : Nat := rotl13 (imul32 (h ^^^ c) 3432918353)

/-- `hashSeed(seed)`: fold the avalanche step over the seed's character
codes, then finalize.  (`charCodeAt` = code point for the ASCII seeds in
play.) -/
def hashSeed (s : String) : Nat :=
  let h0 : Nat := 1779033703 ^^^ s.length
  let h := s.data.foldl (fun h c => hashStep h c.toNat) h0
  (imul32 (h ^^^ (h >>> 16)) 2246822507) ^^^ (h >>> 13)

/-- One call of the generator returned by `createSeededRng`: advance the
32-bit state `t`, return the new state and the numerator `r` of the
deviate `r / 2^32 ∈ [0,1)`.  (The JS `t` grows as a float but every use
coerces it to 32 bits, so keeping `t` reduced `% 2^32` is exact.) -/
def rngNext (t : Nat) : Nat × Nat :=
  let t' := (t + 0x6D2B79F5) % pow32
  let r1 := imul32 (t' ^^^ (t' >>> 15)) (t' ||| 1)
  let r2 := r1 ^^^ ((r1 + imul32 (r1 ^^^ (r1 >>> 7)) (r1 ||| 61)) % pow32)
  let r3 := r2 ^^^ (r2 >>> 14)
  (t', r3)

/-- The deviate produced by one generator call, as the exact rational
`r / 2^32` (the value of the JS `rng()`). -/
def deviate (r : Nat) : ℚ := (r : ℚ) / (pow32 : ℚ)

/-! ## Calendar arithmetic (`getWeekKey`)

The JS code derives the Monday of a game's calendar week via `Date`
arithmetic on local civil dates.  We model civil dates with the standard
days-from-civil bijection; `getDay` is the weekday of the civil date
(1970-01-01 is a Thursday = 4), which is what `new Date(y, m-1, d)`
yields regardless of time zone. -/

/-- Days since 1970-01-01 of a civil date (proleptic Gregorian). -/
def daysFromCivil (y m d : Int) : Int :=
  let y' := if m ≤ 2 then y - 1 else y
  let era := Int.fdiv y' 400
  let yoe := y' - era * 400
  let mp := if m > 2 then m - 3 else m + 9
  let doy := Int.fdiv (153 * mp + 2) 5 + d - 1
  let doe := yoe * 365 + Int.fdiv yoe 4 - Int.fdiv yoe 100 + doy
  era * 146097 + doe - 719468

/-- Civil date (year, month, day) of a days-since-epoch count. -/
def civilFromDays (z0 : Int) : Int × Int × Int :=
  let z := z0 + 719468
  let era := Int.fdiv z 146097
  let doe := z - era * 146097
  let yoe := Int.fdiv (doe - Int.fdiv doe 1460 + Int.fdiv doe 36524 - Int.fdiv doe 146096) 365
  let y := yoe + era * 400
  let doy := doe - (365 * yoe + Int.fdiv yoe 4 - Int.fdiv yoe 100)
  let mp := Int.fdiv (5 * doy + 2) 153
  let d := doy - Int.fdiv (153 * mp + 2) 5 + 1
  let m := if mp < 10 then mp + 3 else mp - 9
  (if m ≤ 2 then y + 1 else y, m, d)

/-- JS `Number(str)` for the digit strings produced by splitting a
`MM/DD/YYYY` date (defaulting 0 on garbage, which no claim exercises). -/
def numOf (s : String) : Int := Int.ofNat (s.toNat?.getD 0)

/-- `String(n).padStart(2, '0')` for the month/day fields. -/
def pad2 (n : Int) : String :=
  let s := toString n
  if s.length < 2 then "0" ++ s else s

/-- `getWeekKey(dateStr)`: the `YYYY-MM-DD` key of the Monday of the
calendar week containing `MM/DD/YYYY`. -/
def getWeekKey (dateStr : String) : String :=
  match dateStr.splitOn "/" with
  | month :: day :: year :: _ =>
    let days := daysFromCivil (numOf year) (numOf month) (numOf day)
    let dow := Int.emod (days + 4) 7
    let monday := days - (if dow == 0 then 6 else dow - 1)
    let ymd := civilFromDays monday
    toString ymd.1 ++ "-" ++ pad2 ymd.2.1 ++ "-" ++ pad2 ymd.2.2
  | _ => ""

/-- Code-point lexicographic comparison on character lists (kernel-
computable Bool form of the string order used for `localeCompare` on the
ASCII names in play). -/
def charsLe : List Char → List Char → Bool
  | [], _ => true
  | _ :: _, [] => false
  | a :: as, b :: bs =>
    if a.toNat < b.toNat then true
    else if b.toNat < a.toNat then false
    else charsLe as bs

/-- String comparison by code points (`a.localeCompare(b) <= 0` for the
ASCII team names in play). -/
def strLeB (a b : String) : Bool := charsLe a.data b.data

/-! ## Data model -/

/-- A time slot to fill: `{date, slot (time-window label), index}`.
The optional ordinal `index` addresses lock requirements (`slot.index ?? i`). -/
structure Slot where
  date : String
  slot : String
  index : Option Nat := none
deriving DecidableEq, Repr

/-- A produced game: `{date, slot, away, home}`. -/
structure Game where
  date : String
  slot : String
  away : String
  home : String
deriving DecidableEq, Repr, Inhabited

/-- One entry of the pair ledger (`createPairState`). -/
structure PairEntry where
  teams : String × String
  remaining : Nat
  homeToggle : Nat := 0
deriving DecidableEq, Repr, Inhabited

/-- JS `Set.add`: append if not already present (keeps insertion order). -/
def setAdd (s : List String) (x : String) : List String :=
  if s.contains x then s else s ++ [x]

/-- A lock requirement: teams pinned to a slot, with optional explicit
home/away sides. -/
structure Lock where
  requiredTeams : List String := []
  away : Option String := none
  home : Option String := none
deriving DecidableEq, Repr

/-! ## Verification utilities -/

/-- `summarizeSlotDistribution(games, slot)`: per-team appearance count in
the given slot label, alphabetically keyed (counts accumulated in game
order, away before home, then sorted by team name). -/
def summarizeSlotDistribution (games : List Game) (slot : String) :
    List (String × Nat) :=
  let counts := games.foldl
    (fun m g =>
      if g.slot == slot then
        upsert (upsert m g.away 0 (· + 1)) g.home 0 (· + 1)
      else m) []
  List.insertionSort (fun a b => strLeB a.1 b.1 = true) counts

/-- Result of `computeSlotFairness`.  The display-only `mean`/`stdDev`
fields (rounded rationals and a real square root) are not modelled; no
claim concerns them and they feed into nothing else. -/
structure SlotFairness where
  rating : String
  range : Nat
  min : Nat
  max : Nat
  fair : Bool
deriving DecidableEq, Repr

/-- The rating ladder of `computeSlotFairness` as a function of the
range of the distribution (the non-empty branch of the source). -/
def fairnessRating (range : Nat) : String × Bool :=
  if range == 0 then ("Perfect", true)
  else if range == 1 then ("Excellent", true)
  else if range == 2 then ("Good", true)
  else if range == 3 then ("Fair", false)
  else ("Poor", false)

/-- `computeSlotFairness(games, slot)`. -/
def computeSlotFairness (games : List Game) (slot : String) : SlotFairness :=
  let counts := (summarizeSlotDistribution games slot).map Prod.snd
  match counts with
  | [] => { rating := "N/A", range := 0, min := 0, max := 0, fair := true }
  | c :: cs =>
    let mn := cs.foldl Nat.min c
    let mx := cs.foldl Nat.max c
    let range := mx - mn
    let rf := fairnessRating range
    { rating := rf.1, range := range, min := mn, max := mx, fair := rf.2 }

/-- Per-team `{home, away, diff}` of `computeHomeAwayBalance`. -/
structure Bal where
  home : Nat
  away : Nat
  diff : Nat
deriving DecidableEq, Repr

/-- `computeHomeAwayBalance(games)`: association list keyed in JS `Map`
insertion order (all home teams in game order, then all away teams,
first occurrence kept — the order the optimizer's sort then refines). -/
def computeHomeAwayBalance (games : List Game) : List (String × Bal) :=
  let keys := dedupFirst (games.map (·.home) ++ games.map (·.away))
  keys.map (fun t =>
    let h := games.countP (fun g => g.home == t)
    let a := games.countP (fun g => g.away == t)
    (t, { home := h, away := a, diff := (Int.natAbs ((h : Int) - (a : Int))) }))

/-- One violation record of `verifyNoDoubleheaders`. -/
structure Violation where
  date : String
  team : String
  gameCount : Nat
  gameIndices : List Nat
deriving DecidableEq, Repr

/-- The nested date → team → game-index-list map built by
`verifyNoDoubleheaders`. -/
abbrev DHMap : Type := List (String × List (String × List Nat))

/-- Push game index `idx` onto the (date, team) bucket. -/
def dhInsert (m : DHMap) (date team : String) (idx : Nat) : DHMap :=
  upsert m date [] (fun tm => upsert tm team [] (fun l => l ++ [idx]))

/-- Build the nested map from the indexed game list. -/
def dhBuild : List Game → Nat → DHMap → DHMap
  | [], _, m => m
  | g :: gs, idx, m =>
    dhBuild gs (idx + 1) (dhInsert (dhInsert m g.date g.away idx) g.date g.home idx)

/-- Result of `verifyNoDoubleheaders`. -/
structure VerifyResult where
  valid : Bool
  violations : List Violation
deriving DecidableEq, Repr

/-- Collect the violation records (teams with more than one game index
on one date) from the nested map. -/
def dhViolations (m : DHMap) : List Violation :=
  m.foldr
    (fun (dm : String × List (String × List Nat)) acc =>
      dm.2.foldr
        (fun tm acc2 =>
          if tm.2.length > 1 then
            { date := dm.1, team := tm.1, gameCount := tm.2.length,
              gameIndices := tm.2 } :: acc2
          else acc2) acc) []

/-- `verifyNoDoubleheaders(games)`. -/
def verifyNoDoubleheaders (games : List Game) : VerifyResult :=
  let violations := dhViolations (dhBuild games 0 [])
  { valid := violations.isEmpty, violations := violations }

/-- `computeTargetRange(teamCount, slotGameCount)`: `min`/`max` are floor
and ceiling of `ideal = 2 * slotGameCount / teamCount` (both 0 when
`teamCount` is 0, matching the guard; the `ideal` field itself is used by
no caller).  Floor of a nonnegative fraction is `Nat` division and its
ceiling is `(a + b - 1) / b`. -/
def computeTargetRange (teamCount slotGameCount : Nat) : Nat × Nat :=
  let appearances := slotGameCount * 2
  if teamCount == 0 then (0, 0)
  else (appearances / teamCount, (appearances + teamCount - 1) / teamCount)

/-- `toTeamArray(teams)`: deduplicate keeping first occurrences
(`Array.from(new Set(teams))`). -/
def toTeamArray (teams : List String) : List String := dedupFirst teams

/-- `createPairState(teams, gamesPerPair)`: one entry per `i < j`
combination of the name-sorted team list. -/
def pairsOf (gamesPerPair : Nat) : List String → List PairEntry
  | [] => []
  | x :: xs =>
    xs.map (fun y => { teams := (x, y), remaining := gamesPerPair, homeToggle := 0 })
      ++ pairsOf gamesPerPair xs

/-- `createPairState`: sort the teams by name, then enumerate ordered
index pairs `i < j` (the nested loops of the source, expressed
recursively on the sorted list). -/
def createPairState (teams : List String) (gamesPerPair : Nat) : List PairEntry :=
  pairsOf gamesPerPair (List.insertionSort (fun a b => strLeB a b = true) teams)

/-- `needScore(count, minTarget) = max(0, minTarget - count)` (truncated
`Nat` subtraction is exactly this). -/
def needScore (count minTarget : Nat) : Nat := minTarget - count

/-- `projectedExcess(count, delta, maxTarget) = max(0, count + delta - maxTarget)`. -/
def projectedExcess (count delta maxTarget : Nat) : Nat := count + delta - maxTarget

/-! ## Slot assigner: `selectPair` -/

/-- The short-circuiting rejection reasons of `selectPair`'s eligibility
filter, in source order. -/
inductive Reject where
  | noGames | wrongTeams | sameDay | teamLocked | weekLimit | wouldExceed
deriving DecidableEq, Repr

/-- The per-filter rejection counters kept for diagnostics. -/
structure RejCounts where
  noGames : Nat := 0
  wrongTeams : Nat := 0
  sameDay : Nat := 0
  wouldExceed : Nat := 0
  teamLocked : Nat := 0
  weekLimit : Nat := 0
deriving DecidableEq, Repr

def bumpRej (c : RejCounts) : Reject → RejCounts
  | .noGames => { c with noGames := c.noGames + 1 }
  | .wrongTeams => { c with wrongTeams := c.wrongTeams + 1 }
  | .sameDay => { c with sameDay := c.sameDay + 1 }
  | .teamLocked => { c with teamLocked := c.teamLocked + 1 }
  | .weekLimit => { c with weekLimit := c.weekLimit + 1 }
  | .wouldExceed => { c with wouldExceed := c.wouldExceed + 1 }

/-- The non-pair, non-generator inputs of `selectPair`.
`teamsPlayedToday` models the per-date `Set`; `allLockedTeams` is `none`
when the caller passes `null`; `teamsThisWeek` is the per-week counter
map (an absent map behaves as an empty one, both read through `|| 0`). -/
structure SelectCtx where
  isTargetSlot : Bool
  teamTargetCounts : List (String × Nat)
  minTarget : Nat
  maxTarget : Nat
  teamGamesRemaining : List (String × Int)
  requiredTeams : Option (List String)
  teamsPlayedToday : List String
  allLockedTeams : Option (List String)
  teamsThisWeek : List (String × Nat)

/-- `forced`: a lock supplied a non-empty `requiredTeams` list. -/
def SelectCtx.forced (ctx : SelectCtx) : Bool :=
  match ctx.requiredTeams with
  | some l => ¬ l.isEmpty
  | none => false

/-- Whether a pair trips the global locked-team filter (`allLockedTeams`
is `none` when the caller passes `null`). -/
def lockedHit (ctx : SelectCtx) (teamA teamB : String) : Bool :=
  match ctx.allLockedTeams with
  | some locked => locked.contains teamA || locked.contains teamB
  | none => false

/-- The eligibility filter of `selectPair`, returning the first failing
filter in source order, or `none` for a surviving pair. -/
def classify (ctx : SelectCtx) (e : PairEntry) : Option Reject :=
  let teamA := e.teams.1
  let teamB := e.teams.2
  if e.remaining == 0 then some .noGames
  else if ctx.forced &&
      !((ctx.requiredTeams.getD []).all (fun t => t == teamA || t == teamB)) then
    some .wrongTeams
  else if ctx.teamsPlayedToday.contains teamA || ctx.teamsPlayedToday.contains teamB then
    some .sameDay
  else if !ctx.forced && lockedHit ctx teamA teamB then
    some .teamLocked
  else if !ctx.forced &&
      (decide (2 ≤ lookupD ctx.teamsThisWeek teamA 0) ||
        decide (2 ≤ lookupD ctx.teamsThisWeek teamB 0)) then
    some .weekLimit
  else if !ctx.forced &&
      (decide (0 < projectedExcess (lookupD ctx.teamTargetCounts teamA 0)
          (if ctx.isTargetSlot then 1 else 0) ctx.maxTarget) ||
        decide (0 < projectedExcess (lookupD ctx.teamTargetCounts teamB 0)
          (if ctx.isTargetSlot then 1 else 0) ctx.maxTarget)) then
    some .wouldExceed
  else none

/-- The common denominator `100 * 2^32` of every score term
(`remaining`, `±3/±0.2 × need`, `0.02 × gamesLeft`, `2.0 × weekly`,
`0.05 × r/2^32`). -/
def scoreDen : ℕ := 100 * pow32

/-- The score of a surviving pair, scaled by the fixed denominator
`scoreDen`: `score * 100 * 2^32` as an exact integer, with `r` the
numerator of the jitter deviate drawn for the pair.  The scaling keeps
every comparison exact while staying kernel-computable;
`pairScoreNum_eq_spec` relates it to the rational score
`remaining + targetScore + gamesLeft + weeklyPenalty + jitter`. -/
def pairScoreNum (ctx : SelectCtx) (e : PairEntry) (r : Nat) : ℤ :=
  let teamA := e.teams.1
  let teamB := e.teams.2
  let weeklyCountA := lookupD ctx.teamsThisWeek teamA 0
  let weeklyCountB := lookupD ctx.teamsThisWeek teamB 0
  let needA := needScore (lookupD ctx.teamTargetCounts teamA 0) ctx.minTarget
  let needB := needScore (lookupD ctx.teamTargetCounts teamB 0) ctx.minTarget
  let base : ℤ := (e.remaining : ℤ) * (100 * (pow32 : ℤ))
  let targetScore : ℤ :=
    if ctx.isTargetSlot then ((needA : ℤ) + (needB : ℤ)) * (300 * (pow32 : ℤ))
    else -(((needA : ℤ) + (needB : ℤ)) * (20 * (pow32 : ℤ)))
  let gamesLeft : ℤ :=
    ((lookupD ctx.teamGamesRemaining teamA 0 : ℤ) +
      (lookupD ctx.teamGamesRemaining teamB 0 : ℤ)) * (2 * (pow32 : ℤ))
  let weeklyPenalty : ℤ := -(((weeklyCountA : ℤ) + (weeklyCountB : ℤ)) * (200 * (pow32 : ℤ)))
  let jitter : ℤ := 5 * (r : ℤ)
  base + targetScore + gamesLeft + weeklyPenalty + jitter

/-- `score > bestScore` with `bestScore = -Infinity` as `none` (any
finite score beats `-Infinity`). -/
def scoreGtB (s : ℤ) : Option ℤ → Bool
  | none => true
  | some b => b < s

/-- `score === bestScore` (`-Infinity` is never matched by a finite
score). -/
def scoreEqB (s : ℤ) : Option ℤ → Bool
  | none => false
  | some b => s == b

/-- Accumulator of `selectPair`'s `forEach`: current best score
(`-Infinity` is `none`), the indices of the current best list, the
generator state, and the rejection counters. -/
structure SelState where
  bestScore : Option ℤ
  best : List Nat
  rng : Nat
  rej : RejCounts

/-- The `forEach` body of `selectPair`, folded over the indexed pair
list.  A jitter deviate is drawn only for pairs surviving every filter,
exactly as in the source (where `rng()` sits after all rejections). -/
def selGo (ctx : SelectCtx) : List (Nat × PairEntry) → SelState → SelState
  | [], s => s
  | (i, e) :: rest, s =>
    match classify ctx e with
    | some r => selGo ctx rest { s with rej := bumpRej s.rej r }
    | none =>
      let step := rngNext s.rng
      let score := pairScoreNum ctx e step.2
      if scoreGtB score s.bestScore then
        selGo ctx rest { bestScore := some score, best := [i],
                         rng := step.1, rej := s.rej }
      else if scoreEqB score s.bestScore then
        selGo ctx rest { s with best := s.best ++ [i], rng := step.1 }
      else
        selGo ctx rest { s with rng := step.1 }

/-- Result of `selectPair`: the chosen index into `pairs` (the source
returns the entry object by reference and the caller mutates it; the
index identifies that object under value semantics), the advanced
generator state, and the diagnostic rejection counters. -/
structure SelectOut where
  choice : Option Nat
  rng : Nat
  rej : RejCounts
deriving Repr

/-- `selectPair`: filter and score every pair, keep the running best
list, and break exact ties with one further generator draw
(`best[Math.floor(rng() * best.length)]`). -/
def selectPair (pairs : List PairEntry) (ctx : SelectCtx) (rng : Nat) : SelectOut :=
  let s := selGo ctx pairs.enum { bestScore := none, best := [], rng := rng, rej := {} }
  match s.best with
  | [] => { choice := none, rng := s.rng, rej := s.rej }
  | l =>
    let step := rngNext s.rng
    { choice := some (l.getD (step.2 * l.length / pow32) 0),
      rng := step.1, rej := s.rej }

/-! ## Slot assigner: `assignGame` -/

/-- The balance/coin-flip placement of `assignGame` (shared by the
locked-without-sides and unlocked branches): with differentials within
1 of each other a fair coin decides, otherwise the team with the lower
home-minus-away differential hosts. -/
def balancePlace (teamA teamB : String) (rng : Nat)
    (haHome haAway : List (String × Nat)) : (String × String) × Nat :=
  let homeA := lookupD haHome teamA 0
  let awayA := lookupD haAway teamA 0
  let homeB := lookupD haHome teamB 0
  let awayB := lookupD haAway teamB 0
  let balanceScoreA : Int := (homeA : Int) - (awayA : Int)
  let balanceScoreB : Int := (homeB : Int) - (awayB : Int)
  if (balanceScoreA - balanceScoreB).natAbs > 1 then
    if balanceScoreA < balanceScoreB then ((teamB, teamA), rng)
    else ((teamA, teamB), rng)
  else
    let step := rngNext rng
    let swap := step.2 < 2147483648
    ((if swap then teamB else teamA, if swap then teamA else teamB), step.1)

/-- `assignGame({slot, entry, rng, lock, homeAwayCounts})`, returning the
game and the advanced generator state (a coin is tossed only on the
balanced branch).  The first component of the placement pair is the away
team. -/
def assignGame (slot : Slot) (entry : PairEntry) (rng : Nat) (lock : Option Lock)
    (haHome haAway : List (String × Nat)) : Game × Nat :=
  let teamA := entry.teams.1
  let teamB := entry.teams.2
  let placed : (String × String) × Nat :=
    match lock with
    | some l =>
      match l.away, l.home with
      | some la, some lh => ((la, lh), rng)
      | some la, none =>
        let h := if teamA ≠ la then teamA else if teamB ≠ la then teamB else la
        ((la, h), rng)
      | none, some lh =>
        let a := if teamA ≠ lh then teamA else if teamB ≠ lh then teamB else lh
        ((a, lh), rng)
      | none, none =>
        let p := balancePlace teamA teamB rng haHome haAway
        let required := dedupFirst l.requiredTeams
        match required with
        | [req] =>
          if p.1.1 ≠ req && p.1.2 == req then ((p.1.2, p.1.1), p.2) else p
        | _ => p
    | none => balancePlace teamA teamB rng haHome haAway
  ({ date := slot.date, slot := slot.slot, away := placed.1.1, home := placed.1.2 },
    placed.2)

/-! ## Attempt orchestrator: `tryGenerateSchedule` -/

/-- The `stats` record of a successful attempt. -/
structure Stats where
  targetSlot : String
  minTarget : Nat
  maxTarget : Nat
  targetCounts : List (String × Nat)
deriving DecidableEq, Repr

/-- Running per-team home/away counters (`homeAwayCounts`). -/
structure HACounts where
  home : List (String × Nat)
  away : List (String × Nat)
deriving DecidableEq, Repr

/-- Result of one attempt: success with the full game list, or failure
with a reason, optional slot index and the partial game list. -/
inductive TryResult where
  | ok (games : List Game) (stats : Stats) (homeAwayCounts : HACounts)
  | fail (reason : String) (slotIndex : Option Nat) (partialGames : List Game)
deriving DecidableEq, Repr

def TryResult.success : TryResult → Bool
  | .ok _ _ _ => true
  | .fail _ _ _ => false

def TryResult.games : TryResult → List Game
  | .ok g _ _ => g
  | .fail _ _ _ => []

/-- The mutable state threaded through the slot loop of
`tryGenerateSchedule`. -/
structure GenState where
  pairs : List PairEntry
  teamTargetCounts : List (String × Nat)
  teamGamesRemaining : List (String × Int)
  assignments : List Game
  teamsByDate : List (String × List String)
  teamsByWeek : List (String × List (String × Nat))
  ha : HACounts
  rng : Nat

/-- Immutable inputs of `tryGenerateSchedule`. -/
structure TryArgs where
  teams : List String
  slots : List Slot
  targetSlot : String
  seed : String
  gamesPerPair : Nat
  lockRequirements : List (Nat × Lock) := []
  verbose : Bool := false

/-- The union of all teams appearing in any lock requirement. -/
def allLockedTeamsOf (locks : List (Nat × Lock)) : List String :=
  dedupFirst (locks.foldl (fun acc p => acc ++ p.2.requiredTeams) [])

/-- The verbose rejection-diagnostics suffix of a slot-exhaustion
failure message. -/
def rejectionDetail (r : RejCounts) : String :=
  " [" ++ toString r.noGames ++ " exhausted, " ++ toString r.wrongTeams ++
  " wrong-team, " ++ toString r.teamLocked ++ " team-locked, " ++
  toString r.sameDay ++ " same-day, " ++ toString r.weekLimit ++
  " week-limit, " ++ toString r.wouldExceed ++ " would-exceed-max]"

/-- The verbose forced-slot suffix listing which locked pairs still have
games. -/
def forcedDetail (pairs : List PairEntry) (locked : List String) : String :=
  let remaining := pairs.filter (fun p =>
    p.remaining > 0 && locked.all (fun t => t == p.teams.1 || t == p.teams.2))
  if remaining.isEmpty then
    " — " ++ String.intercalate " & " locked ++ " have no games left against each other"
  else
    " — pairs with games: " ++ String.intercalate ", "
      (remaining.map (fun p =>
        p.teams.1 ++ " vs " ++ p.teams.2 ++ " (" ++ toString p.remaining ++ " left)"))

/-- The slot loop of `tryGenerateSchedule`: fill slot `i`, thread the
running counters, recurse. -/
def schedLoop (args : TryArgs) (minTarget maxTarget : Nat)
    (allLocked : Option (List String)) :
    List Slot → Nat → GenState → TryResult
  | [], _, st =>
    let unfinished := st.pairs.filter (fun e => e.remaining > 0)
    if unfinished.isEmpty then
      .ok st.assignments
        { targetSlot := args.targetSlot, minTarget := minTarget,
          maxTarget := maxTarget, targetCounts := st.teamTargetCounts }
        st.ha
    else
      let examples := String.intercalate ", "
        ((unfinished.take 3).map (fun p => p.teams.1 ++ " vs " ++ p.teams.2))
      .fail (toString unfinished.length ++ " matchup(s) still unassigned (e.g., " ++
          examples ++ ")")
        none st.assignments
  | slot :: rest, i, st =>
    let slotLock := lookupNat args.lockRequirements (slot.index.getD i)
    let teamsPlayedToday := lookupD st.teamsByDate slot.date []
    let weekKey := getWeekKey slot.date
    let teamsThisWeek := lookupD st.teamsByWeek weekKey []
    let ctx : SelectCtx :=
      { isTargetSlot := slot.slot == args.targetSlot,
        teamTargetCounts := st.teamTargetCounts,
        minTarget := minTarget, maxTarget := maxTarget,
        teamGamesRemaining := st.teamGamesRemaining,
        requiredTeams := slotLock.map (fun l => l.requiredTeams),
        teamsPlayedToday := teamsPlayedToday,
        allLockedTeams := allLocked,
        teamsThisWeek := teamsThisWeek }
    let sel := selectPair st.pairs ctx st.rng
    match sel.choice with
    | none =>
      let lockMsg :=
        match slotLock with
        | some l => " (locked to " ++ String.intercalate ", " l.requiredTeams ++ ")"
        | none => ""
      let detailMsg :=
        if args.verbose then
          rejectionDetail sel.rej ++
            (match slotLock with
             | some l => if ctx.forced then forcedDetail st.pairs l.requiredTeams else ""
             | none => "")
        else ""
      .fail ("No available matchup for slot #" ++ toString (i + 1) ++ " (" ++
          slot.date ++ " " ++ slot.slot ++ ")" ++ lockMsg ++ detailMsg)
        (some i) st.assignments
    | some idx =>
      let entry := st.pairs.getD idx default
      let ag := assignGame slot entry sel.rng slotLock st.ha.home st.ha.away
      let game := ag.1
      schedLoop args minTarget maxTarget allLocked rest (i + 1)
        { pairs := st.pairs.set idx { entry with remaining := entry.remaining - 1 },
          teamTargetCounts :=
            if slot.slot == args.targetSlot then
              upsert (upsert st.teamTargetCounts game.away 0 (· + 1)) game.home 0 (· + 1)
            else st.teamTargetCounts,
          teamGamesRemaining :=
            upsert (upsert st.teamGamesRemaining game.away 0 (· - 1)) game.home 0 (· - 1),
          assignments := st.assignments ++ [game],
          teamsByDate :=
            upsert st.teamsByDate slot.date []
              (fun s => setAdd (setAdd s game.away) game.home),
          teamsByWeek :=
            upsert st.teamsByWeek weekKey []
              (fun wm => upsert (upsert wm game.away 0 (· + 1)) game.home 0 (· + 1)),
          ha := { home := upsert st.ha.home game.home 0 (· + 1),
                  away := upsert st.ha.away game.away 0 (· + 1) },
          rng := ag.2 }

/-- `tryGenerateSchedule`: build the fresh attempt state and run the
slot loop. -/
def tryGenerateSchedule (args : TryArgs) : TryResult :=
  let rng := hashSeed args.seed
  let pairs := createPairState args.teams args.gamesPerPair
  let teamTargetCounts := args.teams.map (fun t => (t, 0))
  let gamesNeededPerTeam : Int := (args.gamesPerPair : Int) * ((args.teams.length : Int) - 1)
  let teamGamesRemaining := args.teams.map (fun t => (t, gamesNeededPerTeam))
  let targetSlots := (args.slots.filter (fun s => s.slot == args.targetSlot)).length
  let mm := computeTargetRange args.teams.length targetSlots
  let allLocked := allLockedTeamsOf args.lockRequirements
  schedLoop args mm.1 mm.2 (if allLocked.length > 0 then some allLocked else none)
    args.slots 0
    { pairs := pairs,
      teamTargetCounts := teamTargetCounts,
      teamGamesRemaining := teamGamesRemaining,
      assignments := [],
      teamsByDate := [],
      teamsByWeek := [],
      ha := { home := args.teams.map (fun t => (t, 0)),
              away := args.teams.map (fun t => (t, 0)) },
      rng := rng }

/-! ## Home/away optimizer: `optimizeHomeAwayBalance` -/

/-- One candidate flip: the game index (team membership and direction
are recomputed at flip time from the stored game). -/
structure FlipCand where
  idx : Nat
  game : Game
deriving DecidableEq, Repr, Inhabited

/-- The candidate games for flipping `team` (the `gamesCopy.forEach`
collection): games involving the team on its needy side, not fully
pinned by a lock, whose flip does not hurt an opponent imbalanced in
the same direction. -/
def candidatesFor (games : List Game) (gameLocks : List (Nat × Lock))
    (bal : List (String × Bal)) (team : String) (b : Bal) : List FlipCand :=
  let needsMoreHome := b.away > b.home
  let needsMoreAway := b.home > b.away
  (games.enum.filterMap (fun p =>
    let idx := p.1
    let game := p.2
    let isFullyLocked :=
      match lookupNat gameLocks idx with
      | some lock => lock.away.isSome && lock.home.isSome
      | none => false
    if isFullyLocked then none
    else if needsMoreHome && game.away == team then
      match lookupOpt bal game.home with
      | some ob => if ob.away > ob.home then none else some { idx := idx, game := game }
      | none => some { idx := idx, game := game }
    else if needsMoreAway && game.home == team then
      match lookupOpt bal game.away with
      | some ob => if ob.home > ob.away then none else some { idx := idx, game := game }
      | none => some { idx := idx, game := game }
    else none))

/-- Swap home and away of one game (`{...game, home: game.away, away:
game.home}`). -/
def flipGame (g : Game) : Game := { g with home := g.away, away := g.home }

/-- Walk the imbalance-sorted team list; flip one game for the first
team that has any candidate (a generator draw picks among that team's
candidates), or report that no team can be improved. -/
def tryTeams (games : List Game) (gameLocks : List (Nat × Lock))
    (bal : List (String × Bal)) :
    List (String × Bal) → Nat → Option (List Game × Nat)
  | [], _ => none
  | (team, b) :: rest, t =>
    let cands := candidatesFor games gameLocks bal team b
    if cands.isEmpty then tryTeams games gameLocks bal rest t
    else
      let step := rngNext t
      let choice := cands.getD (step.2 * cands.length / pow32) default
      some (games.set choice.idx (flipGame choice.game), step.1)

/-- The teams with positive imbalance, stably sorted by descending
imbalance (JS `sort((a, b) => b[1].diff - a[1].diff)`, stable). -/
def imbalancedList (bal : List (String × Bal)) : List (String × Bal) :=
  List.insertionSort (fun x y => y.2.diff ≤ x.2.diff)
    (bal.filter (fun p => p.2.diff > 0))

/-- The `while (improved && flips < maxFlips)` loop: `fuel` is the
remaining flip budget (each iteration performs at most one flip). -/
def optLoop (gameLocks : List (Nat × Lock)) :
    Nat → List Game → Nat → Nat → List Game × Nat
  | 0, games, _, flips => (games, flips)
  | fuel + 1, games, t, flips =>
    let bal := computeHomeAwayBalance games
    let totalImbalance := bal.foldl (fun acc p => acc + p.2.diff) 0
    if totalImbalance == 0 then (games, flips)
    else
      let imbalanced := imbalancedList bal
      if imbalanced.isEmpty then (games, flips)
      else
        match tryTeams games gameLocks bal imbalanced t with
        | none => (games, flips)
        | some gt => optLoop gameLocks fuel gt.1 gt.2 (flips + 1)

/-- `optimizeHomeAwayBalance(games, lockRequirements, seed, maxFlips)`. -/
def optimizeHomeAwayBalance (games : List Game) (lockRequirements : List (Nat × Lock))
    (seed : String) (maxFlips : Nat) : List Game × Nat :=
  let rng := hashSeed seed
  let gameLocks := lockRequirements.filter (fun p => p.1 < games.length)
  optLoop gameLocks maxFlips games rng 0

/-! ## Retry orchestrator: `generateBalancedSchedule` -/

/-- A recorded attempt failure. -/
structure FailRec where
  attempt : Nat
  reason : String
  slotIndex : Option Nat
  partialGames : List Game
  seed : String
deriving DecidableEq, Repr, Inhabited

/-- The successful return record of `generateBalancedSchedule`. -/
structure GenSuccess where
  games : List Game
  stats : Stats
  homeAwayCounts : HACounts
  seed : String
  attempts : Nat
  homeAwayFlips : Nat
deriving DecidableEq, Repr

/-- Inputs of `generateBalancedSchedule` (with the source's defaults). -/
structure GenArgs where
  teams : List String
  slots : List Slot
  targetSlot : String := "7:00PM - 9:00PM"
  seed : String
  gamesPerPair : Nat := 3
  maxAttempts : Nat := 20
  lockRequirements : List (Nat × Lock) := []
  verbose : Bool := false
  optimizeHomeAway : Bool := true

/-- The doubleheader-regression failure record pushed when a successful
attempt's game list fails the defensive doubleheader check. -/
def dhFailRec (attempt : Nat) (games : List Game) (attemptSeed : String)
    (violations : List Violation) : FailRec :=
  { attempt := attempt + 1,
    reason := "Generated schedule has doubleheaders: " ++
      String.intercalate ", "
        ((violations.take 3).map (fun v =>
          v.team ++ " on " ++ v.date ++ " (" ++ toString v.gameCount ++ " games)")),
    slotIndex := none,
    partialGames := games,
    seed := attemptSeed }

/-- The aggregate error text raised after exhausting all attempts.
(`failures[failures.length - 1]` is read with a default record; the JS
code would throw a `TypeError` there when `maxAttempts` is 0, a path no
claim exercises.) -/
def exhaustedMsg (maxAttempts : Nat) (failures : List FailRec) : String :=
  let reasonCounts := failures.foldl (fun m f => upsert m f.reason 0 (· + 1)) []
  let topReasons := String.intercalate "\n"
    (((List.insertionSort (fun a b => b.2 ≤ a.2) reasonCounts).take 5).map
      (fun p => "  - " ++ p.1 ++ " (" ++ toString p.2 ++ "x)"))
  let lastFailure := failures.getLastD default
  "Unable to build a balanced schedule after " ++ toString maxAttempts ++
    " attempts.\nLast failure: " ++ lastFailure.reason ++
    "\nMost common issues:\n" ++ topReasons

/-- The post-success processing of one attempt (lines 902–947 of the
source): defensive doubleheader check, optional optimizer run, and the
post-optimization doubleheader re-check that discards the optimizer's
output. -/
def finishAttempt (args : GenArgs) (attemptSeed : String) (games : List Game)
    (stats : Stats) (ha : HACounts) (attempt : Nat) : Option GenSuccess :=
  let dh := verifyNoDoubleheaders games
  if ¬ dh.valid then none
  else
    let fin :=
      if args.optimizeHomeAway then
        let opt := optimizeHomeAwayBalance games args.lockRequirements
          (attemptSeed ++ "-optimize") 100
        if ¬ (verifyNoDoubleheaders opt.1).valid then (games, 0) else opt
      else (games, 0)
    some { games := fin.1, stats := stats, homeAwayCounts := ha,
           seed := attemptSeed, attempts := attempt + 1, homeAwayFlips := fin.2 }

/-- The attempt loop of `generateBalancedSchedule`; `fuel` counts the
attempts still allowed. -/
def genLoop (args : GenArgs) (normalizedTeams : List String) :
    Nat → Nat → List FailRec → Except String GenSuccess
  | 0, _, failures => .error (exhaustedMsg args.maxAttempts failures)
  | fuel + 1, attempt, failures =>
    let attemptSeed := args.seed ++ "-" ++ toString attempt
    let result := tryGenerateSchedule
      { teams := normalizedTeams, slots := args.slots, targetSlot := args.targetSlot,
        seed := attemptSeed, gamesPerPair := args.gamesPerPair,
        lockRequirements := args.lockRequirements, verbose := args.verbose }
    match result with
    | .ok games stats ha =>
      match finishAttempt args attemptSeed games stats ha attempt with
      | some success => .ok success
      | none =>
        genLoop args normalizedTeams fuel (attempt + 1)
          (failures ++ [dhFailRec attempt games attemptSeed
            (verifyNoDoubleheaders games).violations])
    | .fail reason slotIndex partialGames =>
      genLoop args normalizedTeams fuel (attempt + 1)
        (failures ++ [{ attempt := attempt + 1, reason := reason,
                        slotIndex := slotIndex, partialGames := partialGames,
                        seed := attemptSeed }])

/-- `generateBalancedSchedule`: normalize the team list, reject empty
inputs, then retry attempts until one succeeds or the budget is spent. -/
def generateBalancedSchedule (args : GenArgs) : Except String GenSuccess :=
  let normalizedTeams := toTeamArray args.teams
  if normalizedTeams.isEmpty then .error "No teams provided for generation."
  else if args.slots.isEmpty then .error "No slots provided for generation."
  else genLoop args normalizedTeams args.maxAttempts 0 []

/-! ## Concrete instances used by witnesses and counterexamples -/

/-- Abbreviation for building slots in concrete instances. -/
def mkSlot (d s : String) : Slot := { date := d, slot := s }

/-- Abbreviation for building games in concrete instances. -/
def mkGame (d s a h : String) : Game := { date := d, slot := s, away := a, home := h }

/-- A tiny concrete generation input (two teams, two slots in different
weeks). -/
def tinyGenArgs : GenArgs :=
  { teams := ["A", "B"], slots := [mkSlot "06/02/2025" "X"], targetSlot := "T",
    seed := "t1", gamesPerPair := 1, maxAttempts := 2 }

/-! ## C3: determinism of `generateBalancedSchedule` -/

/-- C3: for every fixed input, any two runs of `generateBalancedSchedule`
produce identical results — in particular the same game list (same games,
order and home/away roles) and the same `homeAwayFlips` count.  In the
embedding the generator is a pure function of the seed and every map
iterates in insertion order, so the whole pipeline is a pure function of
its arguments. -/
theorem generateBalancedSchedule_deterministic (a b : GenArgs) (h : a = b) :
    generateBalancedSchedule a = generateBalancedSchedule b ∧
    ∀ ra rb, generateBalancedSchedule a = Except.ok ra →
      generateBalancedSchedule b = Except.ok rb →
      ra.games = rb.games ∧ ra.homeAwayFlips = rb.homeAwayFlips := by
  subst h
  refine ⟨rfl, fun ra rb h1 h2 => ?_⟩
  rw [h1] at h2
  cases h2
  exact ⟨rfl, rfl⟩

/-- Witness for C3 at a concrete input. -/
theorem generateBalancedSchedule_deterministic_witness :
    generateBalancedSchedule tinyGenArgs = generateBalancedSchedule tinyGenArgs ∧
    ∀ ra rb, generateBalancedSchedule tinyGenArgs = Except.ok ra →
      generateBalancedSchedule tinyGenArgs = Except.ok rb →
      ra.games = rb.games ∧ ra.homeAwayFlips = rb.homeAwayFlips :=
  generateBalancedSchedule_deterministic tinyGenArgs tinyGenArgs rfl

/-! ## C8: the optimizer on an already balanced game list -/

/-- Summing diffs that are all zero leaves the accumulator unchanged. -/
theorem foldl_diff_zero (l : List (String × Bal)) (n : Nat)
    (h : ∀ p ∈ l, p.2.diff = 0) :
    l.foldl (fun acc p => acc + p.2.diff) n = n := by
  induction l generalizing n with
  | nil => rfl
  | cons p rest ih =>
    have hp : p.2.diff = 0 := h p (by simp)
    have hrest : ∀ q ∈ rest, q.2.diff = 0 := fun q hq => h q (by simp [hq])
    simp [List.foldl, hp, ih n hrest]

/-- C8: if every team's home count equals its away count in the input
(every `computeHomeAwayBalance` diff is 0), `optimizeHomeAwayBalance`
returns its input unchanged with `flips = 0`: the loop computes a total
imbalance of 0 and breaks before attempting any flip. -/
theorem optimize_balanced_input_unchanged (games : List Game)
    (locks : List (Nat × Lock)) (seed : String) (maxFlips : Nat)
    (h : ∀ p ∈ computeHomeAwayBalance games, p.2.diff = 0) :
    optimizeHomeAwayBalance games locks seed maxFlips = (games, 0) := by
  unfold optimizeHomeAwayBalance
  cases maxFlips with
  | zero => rfl
  | succ n =>
    show optLoop _ (n + 1) games _ 0 = (games, 0)
    rw [optLoop]
    simp [foldl_diff_zero _ 0 h]

/-- Witness for C8: a two-game list in which both teams host once. -/
theorem optimize_balanced_input_unchanged_witness :
    (∀ p ∈ computeHomeAwayBalance
        [mkGame "06/02/2025" "X" "A" "B", mkGame "06/04/2025" "X" "B" "A"], p.2.diff = 0) ∧
    optimizeHomeAwayBalance
        [mkGame "06/02/2025" "X" "A" "B", mkGame "06/04/2025" "X" "B" "A"] [] "s" 100 =
      ([mkGame "06/02/2025" "X" "A" "B", mkGame "06/04/2025" "X" "B" "A"], 0) :=
  ⟨by decide, optimize_balanced_input_unchanged _ [] "s" 100 (by decide)⟩

/-! ## C9: `computeSlotFairness` rating ladder -/

/-- The rating ladder as a function of the range. -/
theorem fairnessRating_spec (r : Nat) :
    ((fairnessRating r).1 = "Perfect" ↔ r = 0) ∧
    ((fairnessRating r).1 = "Excellent" ↔ r = 1) ∧
    ((fairnessRating r).1 = "Good" ↔ r = 2) ∧
    ((fairnessRating r).1 = "Fair" ↔ r = 3) ∧
    ((fairnessRating r).1 = "Poor" ↔ 4 ≤ r) ∧
    ((fairnessRating r).2 = true ↔ r < 3) := by
  match r with
  | 0 => decide
  | 1 => decide
  | 2 => decide
  | 3 => decide
  | n + 4 =>
    refine ⟨?_, ?_, ?_, ?_, ?_, ?_⟩ <;> simp [fairnessRating]

/-- C9 counterexample: the claim quantifies over every *non-empty game
list*, but a non-empty list with no game in the queried slot label has
an empty distribution, for which the source returns rating `"N/A"` with
`range = 0` — not `"Perfect"` — so "rating Perfect exactly when range
is 0" fails there. -/
theorem computeSlotFairness_na_counterexample :
    [mkGame "06/02/2025" "X" "A" "B"] ≠ ([] : List Game) ∧
    (computeSlotFairness [mkGame "06/02/2025" "X" "A" "B"] "Y").range = 0 ∧
    (computeSlotFairness [mkGame "06/02/2025" "X" "A" "B"] "Y").rating ≠ "Perfect" := by
  decide

/-- C9 (amended): for every game list whose distribution in the given
slot label is non-empty (at least one game carries that label), the
rating is Perfect/Excellent/Good/Fair exactly for ranges 0/1/2/3, Poor
for ranges ≥ 4, and `fair = true` exactly when the range is < 3;
distribution `{5,5,5,5}` rates Perfect, a range-1 distribution rates
Excellent, and `{4,5,6,7}` rates Fair with `fair = false`. -/
theorem computeSlotFairness_rating_spec (games : List Game) (slot : String)
    (h : summarizeSlotDistribution games slot ≠ []) :
    ((computeSlotFairness games slot).rating = "Perfect" ↔
      (computeSlotFairness games slot).range = 0) ∧
    ((computeSlotFairness games slot).rating = "Excellent" ↔
      (computeSlotFairness games slot).range = 1) ∧
    ((computeSlotFairness games slot).rating = "Good" ↔
      (computeSlotFairness games slot).range = 2) ∧
    ((computeSlotFairness games slot).rating = "Fair" ↔
      (computeSlotFairness games slot).range = 3) ∧
    ((computeSlotFairness games slot).rating = "Poor" ↔
      4 ≤ (computeSlotFairness games slot).range) ∧
    ((computeSlotFairness games slot).fair = true ↔
      (computeSlotFairness games slot).range < 3) := by
  unfold computeSlotFairness
  cases hd : summarizeSlotDistribution games slot with
  | nil => exact absurd hd h
  | cons c cs =>
    simp only [List.map]
    exact fairnessRating_spec _

/-- Witness for C9 combining the amended statement with the claim's
concrete distributions: `{5,5,5,5}` (five A–B and five C–D games) rates
Perfect; a range-1 distribution rates Excellent; `{4,5,6,7}` rates Fair
with `fair = false`. -/
theorem computeSlotFairness_rating_spec_witness :
    (summarizeSlotDistribution
        (List.replicate 5 (mkGame "d" "S" "A" "B") ++
          List.replicate 5 (mkGame "d" "S" "C" "D")) "S" ≠ [] ∧
      ((computeSlotFairness
          (List.replicate 5 (mkGame "d" "S" "A" "B") ++
            List.replicate 5 (mkGame "d" "S" "C" "D")) "S").rating = "Perfect" ↔
        (computeSlotFairness
          (List.replicate 5 (mkGame "d" "S" "A" "B") ++
            List.replicate 5 (mkGame "d" "S" "C" "D")) "S").range = 0)) ∧
    (computeSlotFairness
        (List.replicate 5 (mkGame "d" "S" "A" "B") ++
          List.replicate 5 (mkGame "d" "S" "C" "D")) "S").rating = "Perfect" ∧
    (computeSlotFairness
        [mkGame "d" "S" "A" "B", mkGame "d" "S" "B" "C"] "S").rating = "Excellent" ∧
    (computeSlotFairness
        (List.replicate 4 (mkGame "d" "S" "D" "C") ++
          List.replicate 2 (mkGame "d" "S" "D" "B") ++
          [mkGame "d" "S" "D" "A", mkGame "d" "S" "C" "B",
           mkGame "d" "S" "C" "A"] ++
          List.replicate 2 (mkGame "d" "S" "B" "A")) "S").rating = "Fair" ∧
    (computeSlotFairness
        (List.replicate 4 (mkGame "d" "S" "D" "C") ++
          List.replicate 2 (mkGame "d" "S" "D" "B") ++
          [mkGame "d" "S" "D" "A", mkGame "d" "S" "C" "B",
           mkGame "d" "S" "C" "A"] ++
          List.replicate 2 (mkGame "d" "S" "B" "A")) "S").fair = false :=
  ⟨⟨by decide, (computeSlotFairness_rating_spec _ "S" (by decide)).1⟩,
    by decide, by decide, by decide, by decide⟩

/-! ## C10: single-team locks without explicit sides -/

/-- The balance/coin placement always assigns the pair's two teams, in
one of the two orders (first component away, second home). -/
theorem balancePlace_perm (teamA teamB : String) (rng : Nat)
    (hh ha : List (String × Nat)) :
    (balancePlace teamA teamB rng hh ha).1 = (teamA, teamB) ∨
    (balancePlace teamA teamB rng hh ha).1 = (teamB, teamA) := by
  simp only [balancePlace]
  split
  · split
    · exact Or.inr rfl
    · exact Or.inl rfl
  · by_cases h2 : (rngNext rng).2 < 2147483648
    · rw [if_pos h2, if_pos h2]
      exact Or.inr rfl
    · rw [if_neg h2, if_neg h2]
      exact Or.inl rfl

/-- C10: when a lock names exactly one required team and specifies no
explicit home or away side, and the selected pair contains that team
(which `selectPair` guarantees for forced slots), `assignGame` places the
required team away: the balance/coin placement runs first and the
reconciliation step swaps the roles whenever it had put the required
team at home. -/
theorem assignGame_single_lock_away (slot : Slot) (entry : PairEntry) (rng : Nat)
    (l : Lock) (hh ha : List (String × Nat)) (req : String)
    (hreq : dedupFirst l.requiredTeams = [req])
    (haway : l.away = none) (hhome : l.home = none)
    (hmem : entry.teams.1 = req ∨ entry.teams.2 = req) :
    (assignGame slot entry rng (some l) hh ha).1.away = req := by
  have hperm := balancePlace_perm entry.teams.1 entry.teams.2 rng hh ha
  have hor : (balancePlace entry.teams.1 entry.teams.2 rng hh ha).1.1 = req ∨
      (balancePlace entry.teams.1 entry.teams.2 rng hh ha).1.2 = req := by
    rcases hperm with h | h <;> rw [h] <;> rcases hmem with hm | hm <;> simp [hm]
  rcases l with ⟨rt, la, lh⟩
  simp only at haway hhome hreq
  subst haway
  subst hhome
  unfold assignGame
  simp only [hreq]
  by_cases hc1 : (balancePlace entry.teams.1 entry.teams.2 rng hh ha).1.1 = req
  · by_cases hc2 : (balancePlace entry.teams.1 entry.teams.2 rng hh ha).1.2 = req <;>
      simp [hc1, hc2]
  · have hc2 : (balancePlace entry.teams.1 entry.teams.2 rng hh ha).1.2 = req := by
      rcases hor with h | h
      · exact absurd h hc1
      · exact h
    simp [hc1, hc2]

/-- Witness for C10: lock requiring exactly team B with no sides, pair
(A, B): B ends up away. -/
theorem assignGame_single_lock_away_witness :
    dedupFirst (Lock.requiredTeams { requiredTeams := ["B"] }) = ["B"] ∧
    Lock.away { requiredTeams := ["B"] } = none ∧
    Lock.home { requiredTeams := ["B"] } = none ∧
    (({ teams := ("A", "B"), remaining := 1 } : PairEntry).teams.1 = "B" ∨
      ({ teams := ("A", "B"), remaining := 1 } : PairEntry).teams.2 = "B") ∧
    (assignGame (mkSlot "06/02/2025" "S") { teams := ("A", "B"), remaining := 1 }
        (hashSeed "q") (some { requiredTeams := ["B"] })
        [("A", 0), ("B", 0)] [("A", 0), ("B", 0)]).1.away = "B" :=
  ⟨by decide, rfl, rfl, Or.inr rfl,
    assignGame_single_lock_away (mkSlot "06/02/2025" "S")
      { teams := ("A", "B"), remaining := 1 } (hashSeed "q")
      { requiredTeams := ["B"] } [("A", 0), ("B", 0)] [("A", 0), ("B", 0)] "B"
      (by decide) rfl rfl (Or.inr rfl)⟩

/-! ## C5: the would-exceed-max filter outside the target slot -/

/-- The concrete `selectPair` context refuting C5: a non-forced pair in a
non-target slot whose team A already holds 5 target-slot appearances
against a maximum of 3. -/
def c5ctx : SelectCtx :=
  { isTargetSlot := false, teamTargetCounts := [("A", 5), ("B", 0)],
    minTarget := 3, maxTarget := 3, teamGamesRemaining := [("A", 1), ("B", 1)],
    requiredTeams := none, teamsPlayedToday := [], allLockedTeams := none,
    teamsThisWeek := [] }

/-- C5 counterexample: in a slot that is NOT the target slot, a
non-forced pair IS rejected by the would-exceed-max filter when a team's
target count already exceeds the maximum — `projectedExcess` is applied
with delta 0, not skipped.  Here teams (A, B) with A at count 5 > max 3
are rejected (`wouldExceed` diagnostic 1, no selection), contradicting
"the would-exceed-max filter never rejects the pair" for non-target
slots. -/
theorem selectPair_wouldExceed_nontarget_counterexample :
    c5ctx.isTargetSlot = false ∧
    c5ctx.forced = false ∧
    classify c5ctx { teams := ("A", "B"), remaining := 1 } = some Reject.wouldExceed ∧
    (selectPair [{ teams := ("A", "B"), remaining := 1 }] c5ctx
        (hashSeed "z-0")).choice = none ∧
    (selectPair [{ teams := ("A", "B"), remaining := 1 }] c5ctx
        (hashSeed "z-0")).rej.wouldExceed = 1 := by
  refine ⟨rfl, rfl, by decide, ?_, ?_⟩ <;> decide


/-- C5 (amended): for a non-forced pair that reaches the would-exceed
stage (positive remaining games, nobody played today, no global-lock
rejection, no weekly-cap rejection), the filter rejects in a non-target
slot exactly when one of the teams' current target counts already
exceeds the per-team maximum (the projection delta is 0 outside the
target slot, so only pre-existing excess triggers it). -/
theorem classify_wouldExceed_nontarget_iff (ctx : SelectCtx) (e : PairEntry)
    (hnt : ctx.isTargetSlot = false)
    (hnf : ctx.forced = false)
    (hrem : e.remaining ≠ 0)
    (hday : ctx.teamsPlayedToday.contains e.teams.1 = false ∧
      ctx.teamsPlayedToday.contains e.teams.2 = false)
    (hlock : ∀ locked, ctx.allLockedTeams = some locked →
      locked.contains e.teams.1 = false ∧ locked.contains e.teams.2 = false)
    (hweek : lookupD ctx.teamsThisWeek e.teams.1 0 < 2 ∧
      lookupD ctx.teamsThisWeek e.teams.2 0 < 2) :
    classify ctx e = some Reject.wouldExceed ↔
      (lookupD ctx.teamTargetCounts e.teams.1 0 > ctx.maxTarget ∨
        lookupD ctx.teamTargetCounts e.teams.2 0 > ctx.maxTarget) := by
  obtain ⟨hw1, hw2⟩ := hweek
  have hmatch : lockedHit ctx e.teams.1 e.teams.2 = false := by
    unfold lockedHit
    cases hl : ctx.allLockedTeams with
    | none => rfl
    | some locked =>
      dsimp only
      rw [(hlock locked hl).1, (hlock locked hl).2]
      rfl
  unfold classify
  rw [if_neg (by simpa using hrem)]
  rw [if_neg (by simp [hnf])]
  rw [if_neg (by rw [hday.1, hday.2]; simp)]
  rw [if_neg (by simp [hnf, hmatch])]
  rw [if_neg (by simp [hnf]; omega)]
  rw [hnt]
  by_cases hx : lookupD ctx.teamTargetCounts e.teams.1 0 > ctx.maxTarget ∨
      lookupD ctx.teamTargetCounts e.teams.2 0 > ctx.maxTarget
  · rw [if_pos (by simp [hnf, projectedExcess]; omega)]
    simp [hx]
  · rw [if_neg (by simp [hnf, projectedExcess]; omega)]
    simp [hx]

/-- Witness for the amended C5 at the concrete context of the
counterexample: the iff instantiates to a true disjunction (team A's
count 5 exceeds max 3). -/
theorem classify_wouldExceed_nontarget_iff_witness :
    c5ctx.isTargetSlot = false ∧ c5ctx.forced = false ∧
    ({ teams := ("A", "B"), remaining := 1 } : PairEntry).remaining ≠ 0 ∧
    (classify c5ctx { teams := ("A", "B"), remaining := 1 } =
        some Reject.wouldExceed ↔
      (lookupD c5ctx.teamTargetCounts "A" 0 > c5ctx.maxTarget ∨
        lookupD c5ctx.teamTargetCounts "B" 0 > c5ctx.maxTarget)) :=
  ⟨rfl, rfl, by decide,
    classify_wouldExceed_nontarget_iff c5ctx { teams := ("A", "B"), remaining := 1 }
      rfl rfl (by decide) (by decide) (fun locked h => by cases h) (by decide)⟩

/-! ## C6: optimizer behaviour when the most-imbalanced team has no
eligible flip -/

/-- The games and locks of the C6 counterexample: team X plays away
twice, both games fully pinned by locks; Y, Q, R, P carry smaller
imbalances and Y's game is flippable. -/
def c6games : List Game :=
  [mkGame "06/02/2025" "S" "X" "P", mkGame "06/04/2025" "S" "X" "P",
   mkGame "06/09/2025" "S" "Q" "Y", mkGame "06/11/2025" "S" "P" "R"]

def c6locks : List (Nat × Lock) :=
  [(0, { requiredTeams := ["X", "P"], away := some "X", home := some "P" }),
   (1, { requiredTeams := ["X", "P"], away := some "X", home := some "P" })]

/-- C6 counterexample: the selected most-imbalanced team (X, uniquely at
the head of the descending imbalance order with diff 2) has no eligible
flip, yet the optimizer does NOT stop with the accumulated flip count 0
and unchanged games: it walks on to the less-imbalanced teams and flips
one of Y's games (`flips = 1` with `maxFlips = 1`, and the game list
changes). -/
theorem optimizer_most_imbalanced_stall_counterexample :
    (imbalancedList (computeHomeAwayBalance c6games)).head?.map Prod.fst = some "X" ∧
    candidatesFor c6games c6locks (computeHomeAwayBalance c6games) "X"
      { home := 0, away := 2, diff := 2 } = [] ∧
    (optimizeHomeAwayBalance c6games c6locks "s" 1).2 = 1 ∧
    (optimizeHomeAwayBalance c6games c6locks "s" 1).1 ≠ c6games := by
  decide

/-- Walking the imbalance-ordered team list flips nothing when no listed
team has a candidate game. -/
theorem tryTeams_none (games : List Game) (gameLocks : List (Nat × Lock))
    (bal : List (String × Bal)) (l : List (String × Bal)) (t : Nat)
    (h : ∀ p ∈ l, candidatesFor games gameLocks bal p.1 p.2 = []) :
    tryTeams games gameLocks bal l t = none := by
  induction l with
  | nil => rfl
  | cons p rest ih =>
    obtain ⟨team, b⟩ := p
    have hc : candidatesFor games gameLocks bal team b = [] := h (team, b) (by simp)
    rw [tryTeams, hc]
    exact ih (fun q hq => h q (by simp [hq]))

/-- C6 (amended): the optimizer stops without error — returning the games
as they stand and the flip count accumulated so far — exactly in the
situation that NO imbalanced team (not merely the most imbalanced one)
has an eligible flip; when only the most-imbalanced team lacks one, the
loop instead tries the next team in descending imbalance order (see the
counterexample).  Stated for the running loop with any accumulated flip
count, and for a fresh `optimizeHomeAwayBalance` call, whose accumulated
count is 0. -/
theorem optimizer_stalls_when_no_team_flippable (lockReqs : List (Nat × Lock))
    (games : List Game) (fuel t flips : Nat) (seed : String) (maxFlips : Nat)
    (h : ∀ p ∈ imbalancedList (computeHomeAwayBalance games),
      candidatesFor games (lockReqs.filter (fun p => p.1 < games.length))
        (computeHomeAwayBalance games) p.1 p.2 = []) :
    optLoop (lockReqs.filter (fun p => p.1 < games.length)) fuel games t flips =
      (games, flips) ∧
    optimizeHomeAwayBalance games lockReqs seed maxFlips = (games, 0) := by
  have main : ∀ fuel t flips,
      optLoop (lockReqs.filter (fun p => p.1 < games.length)) fuel games t flips =
        (games, flips) := by
    intro fuel t flips
    cases fuel with
    | zero => rfl
    | succ n =>
      have ht := tryTeams_none games (lockReqs.filter (fun p => p.1 < games.length))
        (computeHomeAwayBalance games)
        (imbalancedList (computeHomeAwayBalance games)) t h
      rw [optLoop]
      simp only [ht]
      split
      · rfl
      · split
        · rfl
        · rfl
  exact ⟨main fuel t flips, main maxFlips (hashSeed seed) 0⟩

/-- Witness for the amended C6: one fully locked game; both teams are
imbalanced but neither has a candidate flip, so the optimizer returns
its input with flip count 0. -/
theorem optimizer_stalls_when_no_team_flippable_witness :
    (∀ p ∈ imbalancedList (computeHomeAwayBalance
        [mkGame "06/02/2025" "S" "A" "B"]),
      candidatesFor [mkGame "06/02/2025" "S" "A" "B"]
        (([(0, { requiredTeams := ["A", "B"], away := some "A", home := some "B" })] :
            List (Nat × Lock)).filter
          (fun p => p.1 < [mkGame "06/02/2025" "S" "A" "B"].length))
        (computeHomeAwayBalance [mkGame "06/02/2025" "S" "A" "B"]) p.1 p.2 = []) ∧
    optimizeHomeAwayBalance [mkGame "06/02/2025" "S" "A" "B"]
      [(0, { requiredTeams := ["A", "B"], away := some "A", home := some "B" })]
      "w6" 100 = ([mkGame "06/02/2025" "S" "A" "B"], 0) :=
  ⟨by decide,
    (optimizer_stalls_when_no_team_flippable
      [(0, { requiredTeams := ["A", "B"], away := some "A", home := some "B" })]
      [mkGame "06/02/2025" "S" "A" "B"] 100 0 0 "w6" 100 (by decide)).2⟩

/-! ## C7: doubleheader handling around the optimizer in
`generateBalancedSchedule` -/

/-- C7: for a successful attempt inside `generateBalancedSchedule` (with
optimization enabled): if the pre-optimization doubleheader check passes
but the optimizer's output fails the re-check, the optimizer's output is
discarded and the attempt returns the pre-optimization game list with
`homeAwayFlips = 0`; if instead the pre-optimization check itself fails,
the attempt is recorded in `failures` (reason, null slot index, partial
games, per-attempt seed) and the loop moves on to the next attempt. -/
theorem genLoop_doubleheader_handling (args : GenArgs) (normalizedTeams : List String)
    (fuel attempt : Nat) (failures : List FailRec)
    (games : List Game) (stats : Stats) (ha : HACounts)
    (hres : tryGenerateSchedule
        { teams := normalizedTeams, slots := args.slots, targetSlot := args.targetSlot,
          seed := args.seed ++ "-" ++ toString attempt,
          gamesPerPair := args.gamesPerPair,
          lockRequirements := args.lockRequirements, verbose := args.verbose } =
      TryResult.ok games stats ha)
    (hopt : args.optimizeHomeAway = true) :
    ((verifyNoDoubleheaders games).valid = true →
      (verifyNoDoubleheaders (optimizeHomeAwayBalance games args.lockRequirements
          (args.seed ++ "-" ++ toString attempt ++ "-optimize") 100).1).valid = false →
      genLoop args normalizedTeams (fuel + 1) attempt failures =
        Except.ok { games := games, stats := stats, homeAwayCounts := ha,
                    seed := args.seed ++ "-" ++ toString attempt,
                    attempts := attempt + 1, homeAwayFlips := 0 }) ∧
    ((verifyNoDoubleheaders games).valid = false →
      genLoop args normalizedTeams (fuel + 1) attempt failures =
        genLoop args normalizedTeams fuel (attempt + 1)
          (failures ++ [dhFailRec attempt games (args.seed ++ "-" ++ toString attempt)
            (verifyNoDoubleheaders games).violations])) := by
  constructor
  · intro hv hvo
    rw [genLoop]
    simp only [hres]
    simp [finishAttempt, hv, hvo, hopt]
  · intro hv
    rw [genLoop]
    simp only [hres]
    simp [finishAttempt, hv]

/-- Arguments and attempt results exercising C7's pre-optimization
branch: the duplicated team name lets an attempt "succeed" with an
A-vs-A game, which the defensive check rejects. -/
def c7args : GenArgs :=
  { teams := ["A", "A"], slots := [mkSlot "06/02/2025" "X"], targetSlot := "T",
    seed := "s", gamesPerPair := 1, maxAttempts := 2 }

def c7games : List Game := [mkGame "06/02/2025" "X" "A" "A"]

def c7stats : Stats :=
  { targetSlot := "T", minTarget := 0, maxTarget := 0,
    targetCounts := [("A", 0), ("A", 0)] }

def c7ha : HACounts :=
  { home := [("A", 1), ("A", 0)], away := [("A", 1), ("A", 0)] }

/-- Witness for C7: at this input attempt 0 succeeds with a
doubleheader, and the loop records the failure and moves to attempt 1. -/
theorem genLoop_doubleheader_handling_witness :
    tryGenerateSchedule
        { teams := ["A", "A"], slots := c7args.slots, targetSlot := c7args.targetSlot,
          seed := c7args.seed ++ "-" ++ toString 0,
          gamesPerPair := c7args.gamesPerPair,
          lockRequirements := c7args.lockRequirements, verbose := c7args.verbose } =
      TryResult.ok c7games c7stats c7ha ∧
    c7args.optimizeHomeAway = true ∧
    (verifyNoDoubleheaders c7games).valid = false ∧
    genLoop c7args ["A", "A"] 1 0 [] =
      genLoop c7args ["A", "A"] 0 1
        ([] ++ [dhFailRec 0 c7games (c7args.seed ++ "-" ++ toString 0)
          (verifyNoDoubleheaders c7games).violations]) :=
  ⟨by decide, rfl, by decide,
    (genLoop_doubleheader_handling c7args ["A", "A"] 0 0 [] c7games c7stats c7ha
      (by decide) rfl).2 (by decide)⟩

/-! ## Association-map lemmas -/

theorem lookupD_nil {α : Type} (k : String) (d : α) : lookupD [] k d = d := rfl

theorem lookupD_cons {α : Type} (p : String × α) (rest : List (String × α))
    (k : String) (d : α) :
    lookupD (p :: rest) k d = if p.1 == k then p.2 else lookupD rest k d := by
  unfold lookupD
  rw [List.find?_cons]
  cases hb : p.1 == k <;> simp [hb]

theorem lookupD_setKey {α : Type} (m : List (String × α)) (k : String) (v : α)
    (k' : String) (d : α) :
    lookupD (setKey m k v) k' d = if k' = k then v else lookupD m k' d := by
  induction m with
  | nil =>
    rw [setKey, lookupD_cons]
    by_cases h : k' = k
    · subst h
      simp
    · have h1 : (k == k') = false := by
        simp only [beq_eq_false_iff_ne, ne_eq]
        exact fun hh => h hh.symm
      simp [h1, h]
  | cons p rest ih =>
    by_cases hpk : p.1 = k
    · rw [setKey, if_pos (by simp [hpk]), lookupD_cons, lookupD_cons]
      by_cases h : k' = k
      · subst h
        simp
      · have h1 : (k == k') = false := by
          simp only [beq_eq_false_iff_ne, ne_eq]
          exact fun hh => h hh.symm
        have h2 : (p.1 == k') = false := by rw [hpk]; exact h1
        simp [h1, h2, h]
    · rw [setKey, if_neg (by simp [hpk]), lookupD_cons, lookupD_cons, ih]
      by_cases hpk' : p.1 = k'
      · have hne : ¬ k' = k := fun hh => hpk (hpk'.trans hh)
        simp [hpk', hne]
      · have h2 : (p.1 == k') = false := by simp [hpk']
        simp [h2]

theorem lookupD_upsert {α : Type} (m : List (String × α)) (k : String) (d : α)
    (f : α → α) (k' : String) :
    lookupD (upsert m k d f) k' d = if k' = k then f (lookupD m k d) else lookupD m k' d := by
  unfold upsert
  exact lookupD_setKey m k (f (lookupD m k d)) k' d

theorem mem_setKey {α : Type} {m : List (String × α)} {k : String} {v : α}
    {p : String × α} (h : p ∈ setKey m k v) : p = (k, v) ∨ p ∈ m := by
  induction m with
  | nil =>
    rw [setKey] at h
    simp at h
    exact Or.inl h
  | cons q rest ih =>
    rw [setKey] at h
    by_cases hq : q.1 == k
    · rw [if_pos hq] at h
      rcases List.mem_cons.mp h with h1 | h1
      · exact Or.inl h1
      · exact Or.inr (List.mem_cons_of_mem q h1)
    · rw [if_neg hq] at h
      rcases List.mem_cons.mp h with h1 | h1
      · exact Or.inr (h1 ▸ List.mem_cons_self q rest)
      · rcases ih h1 with h2 | h2
        · exact Or.inl h2
        · exact Or.inr (List.mem_cons_of_mem q h2)

theorem keys_setKey {α : Type} (m : List (String × α)) (k : String) (v : α) :
    (setKey m k v).map Prod.fst = m.map Prod.fst ∨
    (setKey m k v).map Prod.fst = m.map Prod.fst ++ [k] := by
  induction m with
  | nil => exact Or.inr (by simp [setKey])
  | cons q rest ih =>
    rw [setKey]
    by_cases hq : q.1 = k
    · left
      simp [hq]
    · rcases ih with h | h
      · left
        simp [hq, h]
      · right
        simp [hq, h]

theorem keysND_setKey {α : Type} {m : List (String × α)} {k : String} {v : α}
    (hnd : (m.map Prod.fst).Nodup) (hk : k ∉ m.map Prod.fst ∨ True) :
    ((setKey m k v).map Prod.fst).Nodup := by
  induction m with
  | nil => simp [setKey]
  | cons q rest ih =>
    rw [setKey]
    by_cases hq : q.1 == k
    · simpa [if_pos hq, List.nodup_cons, eq_of_beq hq] using hnd
    · simp only [if_neg hq, List.map, List.nodup_cons] at hnd ⊢
      refine ⟨?_, ih hnd.2 (Or.inr trivial)⟩
      intro hmem
      rcases keys_setKey rest k v with h | h
      · exact hnd.1 (h ▸ hmem)
      · rw [h] at hmem
        rcases List.mem_append.mp hmem with h1 | h1
        · exact hnd.1 h1
        · simp at h1
          exact absurd h1 (by simpa using hq)

/-- `lookupD` returns the bound value of a present key (under unique
keys), or the default. -/
theorem lookupD_eq_of_mem {α : Type} {m : List (String × α)} {k : String} {v : α}
    (hnd : (m.map Prod.fst).Nodup) (hmem : (k, v) ∈ m) (d : α) :
    lookupD m k d = v := by
  induction m with
  | nil => cases hmem
  | cons q rest ih =>
    simp only [List.map, List.nodup_cons] at hnd
    rcases List.mem_cons.mp hmem with h1 | h1
    · rw [← h1, lookupD_cons, if_pos (by simp)]
    · rw [lookupD_cons, if_neg]
      · exact ih hnd.2 h1
      · intro hq
        have : q.1 = k := eq_of_beq hq
        exact hnd.1 (this ▸ List.mem_map_of_mem Prod.fst h1)

/-- Either the key is absent (default) or the looked-up binding is a
member. -/
theorem lookupD_mem_or {α : Type} (m : List (String × α)) (k : String) (d : α) :
    lookupD m k d = d ∨ (k, lookupD m k d) ∈ m := by
  induction m with
  | nil => exact Or.inl rfl
  | cons q rest ih =>
    rw [lookupD_cons]
    by_cases hq : q.1 == k
    · right
      rw [if_pos hq]
      have hk : k = q.1 := (eq_of_beq hq).symm
      subst hk
      simp
    · rw [if_neg hq]
      rcases ih with h | h
      · exact Or.inl h
      · exact Or.inr (List.mem_cons_of_mem q h)

/-! ## Doubleheader-count correspondence -/

/-- The game-index bucket size of the nested (date, team) map. -/
def bucketLen (m : DHMap) (d t : String) : Nat :=
  (lookupD (lookupD m d ([] : List (String × List Nat))) t ([] : List Nat)).length

/-- Appearance count of team `t` on date `d`: away appearances plus home
appearances (a self-game counts twice, as in the source's two pushes). -/
def apps (games : List Game) (d t : String) : Nat :=
  games.countP (fun g => g.date == d && g.away == t) +
  games.countP (fun g => g.date == d && g.home == t)

theorem bucketLen_dhInsert (m : DHMap) (d0 t0 : String) (idx : Nat) (d t : String) :
    bucketLen (dhInsert m d0 t0 idx) d t =
      bucketLen m d t + (if d = d0 ∧ t = t0 then 1 else 0) := by
  unfold bucketLen dhInsert
  rw [lookupD_upsert]
  by_cases hd : d = d0
  · rw [if_pos hd, lookupD_upsert]
    by_cases ht : t = t0
    · rw [if_pos ht, if_pos ⟨hd, ht⟩]
      subst hd
      subst ht
      simp
    · rw [if_neg ht, if_neg (fun hc => ht hc.2)]
      subst hd
      omega
  · rw [if_neg hd, if_neg (fun hc => hd hc.1)]
    omega

/-- Bridge between the `Bool` counting condition and the propositional
bucket condition. -/
theorem count_if_bridge (x a y b : String) :
    (if (x == a && y == b) = true then 1 else 0) =
      (if a = x ∧ b = y then (1 : Nat) else 0) := by
  by_cases h1 : a = x
  · by_cases h2 : b = y
    · subst h1
      subst h2
      simp
    · subst h1
      have h2' : ¬ (y == b) = true := by simpa using fun hh => h2 hh.symm
      simp [h2', h2]
  · have h1' : ¬ (x == a) = true := by simpa using fun hh => h1 hh.symm
    simp [h1', h1]

theorem bucketLen_dhBuild (games : List Game) (idx : Nat) (m : DHMap)
    (d t : String) :
    bucketLen (dhBuild games idx m) d t = bucketLen m d t + apps games d t := by
  induction games generalizing idx m with
  | nil => simp [dhBuild, apps]
  | cons g gs ih =>
    rw [dhBuild, ih, bucketLen_dhInsert, bucketLen_dhInsert]
    unfold apps
    simp only [List.countP_cons]
    rw [count_if_bridge g.date d g.away t, count_if_bridge g.date d g.home t]
    omega

/-- Well-formedness of the nested map: unique keys at both levels
(maintained by construction via `setKey`). -/
def dhWF (m : DHMap) : Prop :=
  (m.map Prod.fst).Nodup ∧ ∀ p ∈ m, (p.2.map Prod.fst).Nodup

theorem dhWF_insert {m : DHMap} (d t : String) (idx : Nat) (h : dhWF m) :
    dhWF (dhInsert m d t idx) := by
  constructor
  · exact keysND_setKey h.1 (Or.inr trivial)
  · intro p hp
    rcases mem_setKey hp with h1 | h1
    · subst h1
      have hinner : ((lookupD m d ([] : List (String × List Nat))).map Prod.fst).Nodup := by
        rcases lookupD_mem_or m d ([] : List (String × List Nat)) with h2 | h2
        · rw [h2]; exact List.nodup_nil
        · exact h.2 _ h2
      exact keysND_setKey hinner (Or.inr trivial)
    · exact h.2 p h1

theorem dhWF_build (games : List Game) (idx : Nat) (m : DHMap) (h : dhWF m) :
    dhWF (dhBuild games idx m) := by
  induction games generalizing idx m with
  | nil => exact h
  | cons g gs ih => exact ih _ _ (dhWF_insert _ _ _ (dhWF_insert _ _ _ h))

/-- The inner violation fold contributes nothing when every bucket in
the row is small. -/
theorem inner_fold_nil (d : String) (l : List (String × List Nat))
    (acc : List Violation) (h : ∀ tm ∈ l, ¬ tm.2.length > 1) :
    l.foldr (fun tm acc2 =>
      if tm.2.length > 1 then
        ({ date := d, team := tm.1, gameCount := tm.2.length,
           gameIndices := tm.2 } : Violation) :: acc2
      else acc2) acc = acc := by
  induction l with
  | nil => rfl
  | cons tm tms ih =>
    rw [List.foldr_cons, ih (fun q hq => h q (List.mem_cons_of_mem tm hq)),
      if_neg (h tm (List.mem_cons_self tm tms))]

/-- No violations are collected when every bucket of every row is small. -/
theorem dhViolations_nil (m : DHMap)
    (h : ∀ dm ∈ m, ∀ tm ∈ dm.2, ¬ tm.2.length > 1) :
    dhViolations m = [] := by
  unfold dhViolations
  induction m with
  | nil => rfl
  | cons dm ms ih =>
    rw [List.foldr_cons]
    rw [show (ms.foldr (fun dm acc =>
        dm.2.foldr (fun tm acc2 =>
          if tm.2.length > 1 then
            ({ date := dm.1, team := tm.1, gameCount := tm.2.length,
               gameIndices := tm.2 } : Violation) :: acc2
          else acc2) acc) []) = [] from
      ih (fun q hq tm htm => h q (List.mem_cons_of_mem dm hq) tm htm)]
    exact inner_fold_nil dm.1 dm.2 []
      (fun tm htm => h dm (List.mem_cons_self dm ms) tm htm)

/-- If every team appears at most once per date, `verifyNoDoubleheaders`
reports validity. -/
theorem verify_valid_of_apps_le_one (games : List Game)
    (h : ∀ d t, apps games d t ≤ 1) :
    (verifyNoDoubleheaders games).valid = true := by
  have hwf : dhWF (dhBuild games 0 []) :=
    dhWF_build games 0 [] ⟨List.nodup_nil, by simp⟩
  have hviol : dhViolations (dhBuild games 0 []) = [] := by
    apply dhViolations_nil
    intro dm hdm tm htm
    have houter : lookupD (dhBuild games 0 []) dm.1
        ([] : List (String × List Nat)) = dm.2 :=
      lookupD_eq_of_mem hwf.1 (by simpa using hdm) _
    have hinner : lookupD dm.2 tm.1 ([] : List Nat) = tm.2 :=
      lookupD_eq_of_mem (hwf.2 dm hdm) (by simpa using htm) _
    have hlen : tm.2.length = bucketLen (dhBuild games 0 []) dm.1 tm.1 := by
      unfold bucketLen
      rw [houter, hinner]
    have hb : bucketLen (dhBuild games 0 []) dm.1 tm.1 = apps games dm.1 tm.1 := by
      rw [bucketLen_dhBuild]
      simp [bucketLen, lookupD_nil]
    have hle := h dm.1 tm.1
    omega
  unfold verifyNoDoubleheaders
  simp [hviol]

/-! ## `selectPair` postconditions -/

theorem shiftRight_le_self (a k : Nat) : a >>> k ≤ a := by
  rw [Nat.shiftRight_eq_div_pow]
  exact Nat.div_le_self a (2 ^ k)

/-- The generator's deviate numerator is a 32-bit value. -/
theorem rngNext_snd_lt (t : Nat) : (rngNext t).2 < pow32 := by
  have hp : pow32 = 2 ^ 32 := by norm_num [pow32]
  unfold rngNext imul32
  rw [hp]
  have hpos : 0 < 2 ^ 32 := by norm_num
  have h2 : ∀ a b : Nat, (a % 2 ^ 32) ^^^ (b % 2 ^ 32) < 2 ^ 32 :=
    fun a b => Nat.xor_lt_two_pow (Nat.mod_lt _ hpos) (Nat.mod_lt _ hpos)
  exact Nat.xor_lt_two_pow (h2 _ _)
    (lt_of_le_of_lt (shiftRight_le_self _ _) (h2 _ _))

theorem getD_mem_of_lt {α : Type} (l : List α) (n : Nat) (d : α) (h : n < l.length) :
    l.getD n d ∈ l := by
  induction l generalizing n with
  | nil => cases h
  | cons x xs ih =>
    cases n with
    | zero => exact List.mem_cons_self x xs
    | succ m => exact List.mem_cons_of_mem x (ih m (by simpa using h))

/-- Every index that survives the `selectPair` fold into the best list
belongs to an eligible (filter-surviving) indexed pair, or was already
present. -/
theorem selGo_best_mem (ctx : SelectCtx) (l : List (Nat × PairEntry)) (s : SelState) :
    ∀ i ∈ (selGo ctx l s).best,
      i ∈ s.best ∨ ∃ e, (i, e) ∈ l ∧ classify ctx e = none := by
  induction l generalizing s with
  | nil => exact fun i hi => Or.inl hi
  | cons p rest ih =>
    obtain ⟨j, e⟩ := p
    intro i hi
    rw [selGo] at hi
    cases hc : classify ctx e with
    | some r =>
      rw [hc] at hi
      dsimp only at hi
      rcases ih _ i hi with h1 | ⟨e', he', hce⟩
      · exact Or.inl h1
      · exact Or.inr ⟨e', List.mem_cons_of_mem _ he', hce⟩
    | none =>
      rw [hc] at hi
      dsimp only at hi
      split at hi
      · rcases ih _ i hi with h1 | ⟨e', he', hce⟩
        · simp at h1
          subst h1
          exact Or.inr ⟨e, by simp, hc⟩
        · exact Or.inr ⟨e', List.mem_cons_of_mem _ he', hce⟩
      · split at hi
        · rcases ih _ i hi with h1 | ⟨e', he', hce⟩
          · rcases List.mem_append.mp h1 with h2 | h2
            · exact Or.inl h2
            · simp at h2
              subst h2
              exact Or.inr ⟨e, by simp, hc⟩
          · exact Or.inr ⟨e', List.mem_cons_of_mem _ he', hce⟩
        · rcases ih _ i hi with h1 | ⟨e', he', hce⟩
          · exact Or.inl h1
          · exact Or.inr ⟨e', List.mem_cons_of_mem _ he', hce⟩

/-- A chosen index addresses an eligible pair of the input list. -/
theorem selectPair_choice_spec (pairs : List PairEntry) (ctx : SelectCtx)
    (rng : Nat) (idx : Nat)
    (h : (selectPair pairs ctx rng).choice = some idx) :
    idx < pairs.length ∧
      ∀ e, pairs.get? idx = some e → classify ctx e = none := by
  unfold selectPair at h
  dsimp only at h
  rcases hb : (selGo ctx pairs.enum
      { bestScore := none, best := [], rng := rng, rej := {} }).best with _ | ⟨x, xs⟩
  · rw [hb] at h
    cases h
  · rw [hb] at h
    simp only [Option.some.injEq] at h
    have hlt : ((rngNext (selGo ctx pairs.enum
          { bestScore := none, best := [], rng := rng, rej := {} }).rng).2 *
        (x :: xs).length / pow32) < (x :: xs).length := by
      have hr := rngNext_snd_lt (selGo ctx pairs.enum
        { bestScore := none, best := [], rng := rng, rej := {} }).rng
      have hpos : 0 < pow32 := by norm_num [pow32]
      rw [Nat.div_lt_iff_lt_mul hpos]
      calc (rngNext (selGo ctx pairs.enum
            { bestScore := none, best := [], rng := rng, rej := {} }).rng).2 *
            (x :: xs).length
          ≤ (pow32 - 1) * (x :: xs).length := by
            exact Nat.mul_le_mul_right _ (by omega)
        _ < (x :: xs).length * pow32 := by
            have hlen : 0 < (x :: xs).length := by simp
            have hp1 : 0 < pow32 := hpos
            calc (pow32 - 1) * (x :: xs).length
                < pow32 * (x :: xs).length :=
                  (Nat.mul_lt_mul_right hlen).mpr (by omega)
              _ = (x :: xs).length * pow32 := Nat.mul_comm _ _
    have hmem : (x :: xs).getD ((rngNext (selGo ctx pairs.enum
          { bestScore := none, best := [], rng := rng, rej := {} }).rng).2 *
        (x :: xs).length / pow32) 0 ∈ x :: xs := getD_mem_of_lt _ _ _ hlt
    rw [h] at hmem
    rw [← hb] at hmem
    rcases selGo_best_mem ctx pairs.enum _ idx hmem with h1 | ⟨e, he, hce⟩
    · cases h1
    · have hget : pairs.get? idx = some e := by
        have := List.mk_mem_enum_iff_getElem?.mp he
        simpa [List.getElem?_eq_some] using this
      have hlt2 : idx < pairs.length := by
        by_contra hge
        rw [List.get?_eq_none.mpr (Nat.le_of_not_lt hge)] at hget
        cases hget
      refine ⟨hlt2, fun e' he' => ?_⟩
      rw [hget] at he'
      cases he'
      exact hce


/-- What eligibility guarantees for C2: the required teams (if any) lie
inside the pair, and neither of the pair's teams has played on the
slot's date. -/
theorem classify_none_facts (ctx : SelectCtx) (e : PairEntry)
    (h : classify ctx e = none) :
    (∀ t ∈ ctx.requiredTeams.getD [], t = e.teams.1 ∨ t = e.teams.2) ∧
    ctx.teamsPlayedToday.contains e.teams.1 = false ∧
    ctx.teamsPlayedToday.contains e.teams.2 = false := by
  unfold classify at h
  generalize (if ctx.isTargetSlot then (1 : Nat) else 0) = delta at h
  dsimp only at h
  split at h
  · cases h
  split at h
  · cases h
  split at h
  · cases h
  split at h
  · cases h
  split at h
  · cases h
  split at h
  · cases h
  rename_i h1 h2 h3 h4 h5 h6
  simp only [Bool.or_eq_true, not_or, Bool.not_eq_true] at h3
  refine ⟨?_, h3.1, h3.2⟩
  intro t ht
  by_cases hf : ctx.forced = true
  · have hall : ((ctx.requiredTeams.getD []).all
        (fun t => t == e.teams.1 || t == e.teams.2)) = true := by
      by_contra hna
      exact h2 (by simp [hf, hna])
    have hb := List.all_eq_true.mp hall t ht
    rcases (Bool.or_eq_true _ _).mp hb with hx | hx
    · exact Or.inl (eq_of_beq hx)
    · exact Or.inr (eq_of_beq hx)
  · rcases hreq : ctx.requiredTeams with _ | ⟨l⟩
    · rw [hreq] at ht
      cases ht
    · exfalso
      apply hf
      unfold SelectCtx.forced
      rw [hreq]
      rw [hreq] at ht
      simp only [Option.getD_some] at ht
      simp only [Bool.not_eq_true']
      cases l with
      | nil => cases ht
      | cons a as => rfl

/-! ## Lock well-formedness and `assignGame` membership -/

/-- A lock is well formed when its explicit sides (if any) are among its
required teams and, when both are present, distinct.  This is how the
external lock producer builds locks (intersecting the locked-team list
with a historical slot's two occupants); `tryGenerateSchedule` itself
never checks it, which is what the C1/C2 counterexamples exploit. -/
def lockWF (l : Lock) : Prop :=
  (∀ a, l.away = some a → a ∈ l.requiredTeams) ∧
  (∀ h, l.home = some h → h ∈ l.requiredTeams) ∧
  (∀ a h, l.away = some a → l.home = some h → a ≠ h)

/-- All locks of a requirement map are well formed. -/
def locksWF (m : List (Nat × Lock)) : Prop := ∀ p ∈ m, lockWF p.2

theorem lookupNat_mem {α : Type} {m : List (Nat × α)} {k : Nat} {v : α}
    (h : lookupNat m k = some v) : (k, v) ∈ m := by
  induction m with
  | nil => cases h
  | cons p rest ih =>
    have hsplit : List.find? (fun q => q.1 == k) (p :: rest) =
        if (p.1 == k) = true then some p
        else List.find? (fun q => q.1 == k) rest := by
      rw [List.find?_cons]
      by_cases hb : (p.1 == k) = true <;> simp [hb]
    unfold lookupNat at h
    rw [hsplit] at h
    by_cases hb : (p.1 == k) = true
    · rw [if_pos hb] at h
      simp at h
      rw [← h, ← eq_of_beq hb]
      simp
    · rw [if_neg hb] at h
      exact List.mem_cons_of_mem p (ih (by unfold lookupNat; exact h))

/-- Under a well-formed lock whose required teams lie inside the pair
(and over a pair of distinct teams), `assignGame` assigns exactly the
pair's two teams, in one of the two orders. -/
theorem assignGame_perm (slot : Slot) (e : PairEntry) (rng : Nat)
    (lock : Option Lock) (hh ha : List (String × Nat))
    (hwf : ∀ l, lock = some l → lockWF l ∧
      ∀ t ∈ l.requiredTeams, t = e.teams.1 ∨ t = e.teams.2)
    (hne : e.teams.1 ≠ e.teams.2) :
    ((assignGame slot e rng lock hh ha).1.away = e.teams.1 ∧
      (assignGame slot e rng lock hh ha).1.home = e.teams.2) ∨
    ((assignGame slot e rng lock hh ha).1.away = e.teams.2 ∧
      (assignGame slot e rng lock hh ha).1.home = e.teams.1) := by
  cases lock with
  | none =>
    rcases balancePlace_perm e.teams.1 e.teams.2 rng hh ha with hp | hp
    · simp [assignGame, hp]
    · simp [assignGame, hp]
  | some l =>
    obtain ⟨⟨hwa, hwh, hwd⟩, hmem⟩ := hwf l rfl
    cases hla : l.away with
    | some a =>
      cases hlh : l.home with
      | some b =>
        simp only [assignGame, hla, hlh]
        have hane := hwd a b hla hlh
        rcases hmem a (hwa a hla) with h1 | h1 <;>
          rcases hmem b (hwh b hlh) with h2 | h2
        · exact absurd (h1.trans h2.symm) hane
        · exact Or.inl ⟨h1, h2⟩
        · exact Or.inr ⟨h1, h2⟩
        · exact absurd (h1.trans h2.symm) hane
      | none =>
        simp only [assignGame, hla, hlh]
        rcases hmem a (hwa a hla) with h1 | h1
        · rw [if_neg (fun hc => hc h1.symm),
            if_pos (show e.teams.2 ≠ a from fun hc => hne (hc.trans h1).symm)]
          exact Or.inl ⟨h1, rfl⟩
        · rw [if_pos (show e.teams.1 ≠ a from fun hc => hne (hc.trans h1))]
          exact Or.inr ⟨h1, rfl⟩
    | none =>
      cases hlh : l.home with
      | some b =>
        simp only [assignGame, hla, hlh]
        rcases hmem b (hwh b hlh) with h1 | h1
        · rw [if_neg (fun hc => hc h1.symm),
            if_pos (show e.teams.2 ≠ b from fun hc => hne (hc.trans h1).symm)]
          exact Or.inr ⟨rfl, h1⟩
        · rw [if_pos (show e.teams.1 ≠ b from fun hc => hne (hc.trans h1))]
          exact Or.inl ⟨rfl, h1⟩
      | none =>
        rcases hdl : dedupFirst l.requiredTeams with _ | ⟨req, rest⟩
        · rcases balancePlace_perm e.teams.1 e.teams.2 rng hh ha with hp | hp
          · simp [assignGame, hla, hlh, hdl, hp]
          · simp [assignGame, hla, hlh, hdl, hp]
        · rcases rest with _ | ⟨r2, rest2⟩
          · rcases balancePlace_perm e.teams.1 e.teams.2 rng hh ha with hp | hp <;>
              simp only [assignGame, hla, hlh, hdl, hp]
            · by_cases hc : e.teams.1 ≠ req ∧ e.teams.2 = req
              · rw [if_pos (by simp [hc.1, hc.2])]
                exact Or.inr ⟨rfl, rfl⟩
              · rw [if_neg (by simpa using hc)]
                exact Or.inl ⟨by rw [hp], by rw [hp]⟩
            · by_cases hc : e.teams.2 ≠ req ∧ e.teams.1 = req
              · rw [if_pos (by simp [hc.1, hc.2])]
                exact Or.inl ⟨rfl, rfl⟩
              · rw [if_neg (by simpa using hc)]
                exact Or.inr ⟨by rw [hp], by rw [hp]⟩
          · rcases balancePlace_perm e.teams.1 e.teams.2 rng hh ha with hp | hp
            · simp [assignGame, hla, hlh, hdl, hp]
            · simp [assignGame, hla, hlh, hdl, hp]

/-- `assignGame` copies the slot's date and label. -/
theorem assignGame_date_slot (slot : Slot) (e : PairEntry) (rng : Nat)
    (lock : Option Lock) (hh ha : List (String × Nat)) :
    (assignGame slot e rng lock hh ha).1.date = slot.date ∧
    (assignGame slot e rng lock hh ha).1.slot = slot.slot := by
  unfold assignGame
  exact ⟨rfl, rfl⟩

/-! ## Small list helpers for the loop invariant -/

theorem contains_setAdd_self (s : List String) (x : String) :
    (setAdd s x).contains x = true := by
  unfold setAdd
  by_cases h : s.contains x
  · rw [if_pos h]
    exact h
  · rw [if_neg h]
    simp

theorem contains_setAdd_mono (s : List String) (x y : String)
    (h : s.contains y = true) : (setAdd s x).contains y = true := by
  unfold setAdd
  by_cases hc : s.contains x
  · rw [if_pos hc]
    exact h
  · rw [if_neg hc]
    have hy : y ∈ s := by simpa using h
    simp [hy]

/-- Appending one game adds its (at most one per side) contributions to
the appearance count. -/
theorem apps_snoc (xs : List Game) (g : Game) (d t : String) :
    apps (xs ++ [g]) d t = apps xs d t +
      ((if d = g.date ∧ t = g.away then 1 else 0) +
        (if d = g.date ∧ t = g.home then 1 else 0)) := by
  unfold apps
  simp only [List.countP_append, List.countP_cons, List.countP_nil]
  rw [count_if_bridge g.date d g.away t, count_if_bridge g.date d g.home t]
  omega

theorem get?_eq_some_getD {α : Type} [Inhabited α] (l : List α) (n : Nat)
    (h : n < l.length) : l.get? n = some (l.getD n default) := by
  induction l generalizing n with
  | nil => cases h
  | cons x xs ih =>
    cases n with
    | zero => rfl
    | succ m => exact ih m (by simpa using h)

/-! ## C2: no doubleheaders in accepted schedules -/

/-- The slot-loop invariant: with well-formed locks and self-distinct
pair entries, every team keeps at most one appearance per date, and the
per-date played-set traces the appearance counts. -/
theorem schedLoop_ok_apps (args : TryArgs) (minT maxT : Nat)
    (allLocked : Option (List String)) (hwf : locksWF args.lockRequirements)
    (slots : List Slot) :
    ∀ (i : Nat) (st : GenState) (games : List Game) (stats : Stats) (ha : HACounts),
      (∀ e ∈ st.pairs, e.teams.1 ≠ e.teams.2) →
      (∀ d t, apps st.assignments d t ≤ 1) →
      (∀ d t, 1 ≤ apps st.assignments d t →
        (lookupD st.teamsByDate d []).contains t = true) →
      schedLoop args minT maxT allLocked slots i st = TryResult.ok games stats ha →
      ∀ d t, apps games d t ≤ 1 := by
  induction slots with
  | nil =>
    intro i st games stats ha hne happ hplayed hok
    rw [schedLoop] at hok
    split at hok
    · cases hok
      exact happ
    · cases hok
  | cons slot rest ih =>
    intro i st games stats ha hne happ hplayed hok
    rw [schedLoop] at hok
    dsimp only at hok
    split at hok
    · cases hok
    · rename_i idx heq
      set lockO := lookupNat args.lockRequirements (slot.index.getD i) with hlockO
      set ctx : SelectCtx :=
        { isTargetSlot := slot.slot == args.targetSlot,
          teamTargetCounts := st.teamTargetCounts, minTarget := minT,
          maxTarget := maxT, teamGamesRemaining := st.teamGamesRemaining,
          requiredTeams := Option.map (fun l => l.requiredTeams) lockO,
          teamsPlayedToday := lookupD st.teamsByDate slot.date [],
          allLockedTeams := allLocked,
          teamsThisWeek := lookupD st.teamsByWeek (getWeekKey slot.date) [] } with hctx
      set entry : PairEntry := st.pairs.getD idx default with hentry
      set selr : Nat := (selectPair st.pairs ctx st.rng).rng with hselr
      set g : Game := (assignGame slot entry selr lockO st.ha.home st.ha.away).1 with hg
      obtain ⟨hlt, hcl⟩ := selectPair_choice_spec st.pairs ctx st.rng idx heq
      have hget : st.pairs.get? idx = some entry := get?_eq_some_getD st.pairs idx hlt
      have hclass : classify ctx entry = none := hcl entry hget
      have hmem : entry ∈ st.pairs := by
        rw [hentry]
        exact getD_mem_of_lt st.pairs idx default hlt
      have hne_e : entry.teams.1 ≠ entry.teams.2 := hne entry hmem
      have hfacts := classify_none_facts ctx entry hclass
      have hpd1 : (lookupD st.teamsByDate slot.date []).contains entry.teams.1 = false :=
        hfacts.2.1
      have hpd2 : (lookupD st.teamsByDate slot.date []).contains entry.teams.2 = false :=
        hfacts.2.2
      have hlockwf : ∀ l, lockO = some l → lockWF l ∧
          ∀ t ∈ l.requiredTeams, t = entry.teams.1 ∨ t = entry.teams.2 := by
        intro l hl
        refine ⟨hwf (slot.index.getD i, l) (lookupNat_mem (hlockO ▸ hl)), ?_⟩
        intro t ht
        apply hfacts.1
        show t ∈ (Option.map (fun l => l.requiredTeams) lockO).getD []
        rw [hl]
        simpa using ht
      have hdg : g.date = slot.date := by
        rw [hg]
        exact (assignGame_date_slot slot entry selr lockO st.ha.home st.ha.away).1
      have hperm : (g.away = entry.teams.1 ∧ g.home = entry.teams.2) ∨
          (g.away = entry.teams.2 ∧ g.home = entry.teams.1) := by
        rw [hg]
        exact assignGame_perm slot entry selr lockO st.ha.home st.ha.away hlockwf hne_e
      have hgne : g.away ≠ g.home := by
        rcases hperm with ⟨h1, h2⟩ | ⟨h1, h2⟩ <;> rw [h1, h2]
        · exact hne_e
        · exact Ne.symm hne_e
      have h0a : apps st.assignments slot.date g.away = 0 := by
        by_contra h0
        have h1 : 1 ≤ apps st.assignments slot.date g.away :=
          Nat.one_le_iff_ne_zero.mpr h0
        have h2 := hplayed _ _ h1
        rcases hperm with ⟨ha1, _⟩ | ⟨ha1, _⟩
        · rw [ha1, hpd1] at h2
          cases h2
        · rw [ha1, hpd2] at h2
          cases h2
      have h0h : apps st.assignments slot.date g.home = 0 := by
        by_contra h0
        have h1 : 1 ≤ apps st.assignments slot.date g.home :=
          Nat.one_le_iff_ne_zero.mpr h0
        have h2 := hplayed _ _ h1
        rcases hperm with ⟨_, ha1⟩ | ⟨_, ha1⟩
        · rw [ha1, hpd2] at h2
          cases h2
        · rw [ha1, hpd1] at h2
          cases h2
      refine ih (i + 1) _ games stats ha ?_ ?_ ?_ hok
      · intro e' he'
        dsimp only at he'
        rcases List.mem_or_eq_of_mem_set he' with h1 | h1
        · exact hne e' h1
        · rw [h1]
          exact hne_e
      · intro d t
        dsimp only
        rw [apps_snoc]
        by_cases hc1 : d = g.date ∧ t = g.away
        · rw [if_pos hc1,
            if_neg (fun hc2 => hgne (by rw [← hc1.2]; exact hc2.2))]
          have hdd : d = slot.date := hc1.1.trans hdg
          have h0 : apps st.assignments d t = 0 := by
            rw [hdd, hc1.2]
            exact h0a
          omega
        · by_cases hc2 : d = g.date ∧ t = g.home
          · rw [if_neg hc1, if_pos hc2]
            have hdd : d = slot.date := hc2.1.trans hdg
            have h0 : apps st.assignments d t = 0 := by
              rw [hdd, hc2.2]
              exact h0h
            omega
          · rw [if_neg hc1, if_neg hc2]
            have := happ d t
            omega
      · intro d t hge
        dsimp only at hge ⊢
        rw [apps_snoc] at hge
        rw [lookupD_upsert]
        by_cases hd : d = slot.date
        · rw [if_pos hd]
          by_cases hta : t = g.away
          · rw [hta]
            exact contains_setAdd_mono _ _ _ (contains_setAdd_self _ _)
          · by_cases hth : t = g.home
            · rw [hth]
              exact contains_setAdd_self _ _
            · have e1 : (if d = g.date ∧ t = g.away then 1 else 0) = 0 := by
                simp [hta]
              have e2 : (if d = g.date ∧ t = g.home then 1 else 0) = 0 := by
                simp [hth]
              have hge' : 1 ≤ apps st.assignments d t := by omega
              have hcont := hplayed d t hge'
              rw [hd] at hcont
              exact contains_setAdd_mono _ _ _ (contains_setAdd_mono _ _ _ hcont)
        · rw [if_neg hd]
          have e1 : (if d = g.date ∧ t = g.away then 1 else 0) = 0 := by
            simp [show ¬(d = g.date ∧ t = g.away) from
              fun hc => hd (hc.1.trans hdg)]
          have e2 : (if d = g.date ∧ t = g.home then 1 else 0) = 0 := by
            simp [show ¬(d = g.date ∧ t = g.home) from
              fun hc => hd (hc.1.trans hdg)]
          have hge' : 1 ≤ apps st.assignments d t := by omega
          exact hplayed d t hge' 

theorem pairsOf_teams_ne (gpp : Nat) :
    ∀ (l : List String), l.Nodup → ∀ e ∈ pairsOf gpp l, e.teams.1 ≠ e.teams.2 := by
  intro l
  induction l with
  | nil => intro _ e he; cases he
  | cons x xs ih =>
    intro hnd e he
    rcases List.mem_append.mp he with h1 | h1
    · obtain ⟨y, hy, hye⟩ := List.mem_map.mp h1
      rw [← hye]
      intro hcon
      simp only at hcon
      rw [List.nodup_cons] at hnd
      exact hnd.1 (hcon ▸ hy)
    · exact ih (List.nodup_cons.mp hnd).2 e h1

theorem finishAttempt_valid (args : GenArgs) (attemptSeed : String)
    (games : List Game) (stats : Stats) (ha : HACounts) (attempt : Nat)
    (success : GenSuccess)
    (h : finishAttempt args attemptSeed games stats ha attempt = some success) :
    (verifyNoDoubleheaders success.games).valid = true := by
  unfold finishAttempt at h
  by_cases hv : (verifyNoDoubleheaders games).valid = true
  · rw [if_neg (not_not_intro hv)] at h
    cases h
    dsimp only
    by_cases hopt : args.optimizeHomeAway = true
    · simp only [hopt, if_true]
      by_cases hvo : (verifyNoDoubleheaders (optimizeHomeAwayBalance games
          args.lockRequirements (attemptSeed ++ "-optimize") 100).1).valid = true
      · rw [if_neg (not_not_intro hvo)]
        exact hvo
      · rw [if_pos hvo]
        exact hv
    · simp only [hopt, if_false]
      exact hv
  · rw [if_pos hv] at h
    cases h

theorem genLoop_ok_valid (args : GenArgs) (teams : List String) :
    ∀ (fuel attempt : Nat) (failures : List FailRec) (r : GenSuccess),
      genLoop args teams fuel attempt failures = Except.ok r →
      (verifyNoDoubleheaders r.games).valid = true := by
  intro fuel
  induction fuel with
  | zero => intro attempt failures r h; cases h
  | succ n ih =>
    intro attempt failures r h
    rw [genLoop] at h
    split at h
    · rename_i games stats ha hres
      split at h
      · rename_i success hfin
        cases h
        exact finishAttempt_valid _ _ _ _ _ _ _ hfin
      · exact ih _ _ _ h
    · exact ih _ _ _ h

theorem tryGenerateSchedule_no_doubleheaders :
    (∀ (args : TryArgs) (games : List Game) (stats : Stats) (ha : HACounts),
      args.teams.Nodup → locksWF args.lockRequirements →
      tryGenerateSchedule args = TryResult.ok games stats ha →
      (verifyNoDoubleheaders games).valid = true) ∧
    (∀ (gargs : GenArgs) (r : GenSuccess),
      generateBalancedSchedule gargs = Except.ok r →
      (verifyNoDoubleheaders r.games).valid = true) := by
  constructor
  · intro args games stats ha hnd hwff hok
    unfold tryGenerateSchedule at hok
    apply verify_valid_of_apps_le_one
    refine schedLoop_ok_apps args _ _ _ hwff args.slots 0 _ games stats ha ?_ ?_ ?_ hok
    · intro e he
      exact pairsOf_teams_ne args.gamesPerPair _
        (((List.perm_insertionSort _ args.teams).nodup_iff).mpr hnd) e he
    · intro d t
      simp [apps]
    · intro d t hge
      simp [apps] at hge
  · intro gargs r h
    unfold generateBalancedSchedule at h
    dsimp only at h
    by_cases h1 : (toTeamArray gargs.teams).isEmpty = true
    · rw [if_pos h1] at h
      cases h
    · rw [if_neg h1] at h
      by_cases h2 : gargs.slots.isEmpty = true
      · rw [if_pos h2] at h
        cases h
      · rw [if_neg h2] at h
        exact genLoop_ok_valid gargs _ _ _ _ _ h

/-- The concrete instance refuting C2 as universally stated: a
duplicated team name (or, alternatively, a lock whose explicit sides
name teams outside the pair — see the second conjunct) makes
`tryGenerateSchedule` succeed with a schedule that
`verifyNoDoubleheaders` rejects. -/
theorem tryGenerateSchedule_doubleheader_counterexample :
    ((tryGenerateSchedule
        { teams := ["A", "A"], slots := [mkSlot "06/02/2025" "X"],
          targetSlot := "T", seed := "s-0", gamesPerPair := 1 }).success = true ∧
      (verifyNoDoubleheaders (tryGenerateSchedule
        { teams := ["A", "A"], slots := [mkSlot "06/02/2025" "X"],
          targetSlot := "T", seed := "s-0", gamesPerPair := 1 }).games).valid = false) ∧
    ((tryGenerateSchedule
        { teams := ["A", "B"], slots := [mkSlot "06/02/2025" "X", mkSlot "06/02/2025" "X"],
          targetSlot := "T", seed := "s-0", gamesPerPair := 2,
          lockRequirements :=
            [(0, { requiredTeams := ["A", "B"], away := some "C", home := some "D" }),
             (1, { requiredTeams := ["A", "B"], away := some "C", home := some "D" })] }).success
        = true ∧
      (verifyNoDoubleheaders (tryGenerateSchedule
        { teams := ["A", "B"], slots := [mkSlot "06/02/2025" "X", mkSlot "06/02/2025" "X"],
          targetSlot := "T", seed := "s-0", gamesPerPair := 2,
          lockRequirements :=
            [(0, { requiredTeams := ["A", "B"], away := some "C", home := some "D" }),
             (1, { requiredTeams := ["A", "B"], away := some "C", home := some "D" })] }).games).valid
        = false) := by
  constructor
  · constructor <;> decide
  · constructor <;> decide

/-- Witness for the amended C2 at a concrete input: distinct team names,
no locks; the attempt succeeds and its single game passes the
doubleheader check; the `generateBalancedSchedule` conjunct is witnessed
at `tinyGenArgs`. -/
theorem tryGenerateSchedule_no_doubleheaders_witness :
    (["A", "B"] : List String).Nodup ∧
    locksWF ([] : List (Nat × Lock)) ∧
    (verifyNoDoubleheaders (TryResult.games (tryGenerateSchedule
        { teams := ["A", "B"], slots := [mkSlot "06/02/2025" "X"],
          targetSlot := "T", seed := "w2-0", gamesPerPair := 1 }))).valid = true ∧
    ∀ r, generateBalancedSchedule tinyGenArgs = Except.ok r →
      (verifyNoDoubleheaders r.games).valid = true :=
  ⟨by decide, fun p hp => absurd hp (List.not_mem_nil p),
    tryGenerateSchedule_no_doubleheaders.1
      { teams := ["A", "B"], slots := [mkSlot "06/02/2025" "X"],
        targetSlot := "T", seed := "w2-0", gamesPerPair := 1 }
      [{ date := "06/02/2025", slot := "X", away := "B", home := "A" }]
      { targetSlot := "T", minTarget := 0, maxTarget := 0,
        targetCounts := [("A", 0), ("B", 0)] }
      { home := [("A", 1), ("B", 0)], away := [("A", 0), ("B", 1)] }
      (by decide) (fun p hp => absurd hp (List.not_mem_nil p)) (by decide),
    fun r hr => tryGenerateSchedule_no_doubleheaders.2 tinyGenArgs r hr⟩


/-! ## C1: pair meeting counts in accepted schedules -/

/-- Unordered matchup count: how many games of the list oppose `a` and
`b` (in either home/away order). -/
def gamesBetween (games : List Game) (a b : String) : Nat :=
  games.countP (fun g => (g.away == a && g.home == b) || (g.away == b && g.home == a))

/-- Two ordered pairs denote the same unordered pair. -/
def sameSet (p q : String × String) : Prop :=
  (p.1 = q.1 ∧ p.2 = q.2) ∨ (p.1 = q.2 ∧ p.2 = q.1)

instance (p q : String × String) : Decidable (sameSet p q) := by
  unfold sameSet
  infer_instance

theorem sameSet_symm {p q : String × String} (h : sameSet p q) : sameSet q p := by
  rcases h with ⟨h1, h2⟩ | ⟨h1, h2⟩
  · exact Or.inl ⟨h1.symm, h2.symm⟩
  · exact Or.inr ⟨h2.symm, h1.symm⟩

theorem sameSet_trans {p q r : String × String} (h1 : sameSet p q) (h2 : sameSet q r) :
    sameSet p r := by
  rcases h1 with ⟨a1, a2⟩ | ⟨a1, a2⟩ <;> rcases h2 with ⟨b1, b2⟩ | ⟨b1, b2⟩
  · exact Or.inl ⟨a1.trans b1, a2.trans b2⟩
  · exact Or.inr ⟨a1.trans b1, a2.trans b2⟩
  · exact Or.inr ⟨a1.trans b2, a2.trans b1⟩
  · exact Or.inl ⟨a1.trans b2, a2.trans b1⟩

theorem gamesBetween_comm (xs : List Game) (a b : String) :
    gamesBetween xs a b = gamesBetween xs b a := by
  unfold gamesBetween
  induction xs with
  | nil => rfl
  | cons g rest ih =>
    simp only [List.countP_cons]
    rw [ih, Bool.or_comm]

theorem gamesBetween_sameSet (xs : List Game) (p : String × String) (a b : String)
    (h : sameSet p (a, b)) : gamesBetween xs p.1 p.2 = gamesBetween xs a b := by
  rcases h with ⟨h1, h2⟩ | ⟨h1, h2⟩
  · rw [h1, h2]
  · rw [h1, h2, gamesBetween_comm]

theorem gamesBetween_snoc (xs : List Game) (g : Game) (a b : String) :
    gamesBetween (xs ++ [g]) a b = gamesBetween xs a b +
      (if sameSet (g.away, g.home) (a, b) then 1 else 0) := by
  unfold gamesBetween
  rw [List.countP_append]
  congr 1
  simp only [List.countP_cons, List.countP_nil]
  have hb : ((g.away == a && g.home == b) || (g.away == b && g.home == a)) =
      decide (sameSet (g.away, g.home) (a, b)) := by
    unfold sameSet
    by_cases h1 : g.away = a <;> by_cases h2 : g.home = b <;>
      by_cases h3 : g.away = b <;> by_cases h4 : g.home = a <;>
      simp [h1, h2, h3, h4, beq_eq_decide]
  rw [hb]
  by_cases h : sameSet (g.away, g.home) (a, b) <;> simp [h]

theorem classify_none_remaining (ctx : SelectCtx) (e : PairEntry)
    (h : classify ctx e = none) : e.remaining ≠ 0 := by
  unfold classify at h
  dsimp only at h
  split at h
  · cases h
  rename_i h1
  simpa using h1

theorem get?_set_same {α : Type} (l : List α) (n : Nat) (a : α) (h : n < l.length) :
    (l.set n a).get? n = some a := by
  induction l generalizing n with
  | nil => cases h
  | cons x xs ih =>
    cases n with
    | zero => rfl
    | succ m => exact ih m (by simpa using h)

theorem get?_set_other {α : Type} (l : List α) (n m : Nat) (a : α) (h : n ≠ m) :
    (l.set n a).get? m = l.get? m := by
  induction l generalizing n m with
  | nil => rfl
  | cons x xs ih =>
    cases n with
    | zero =>
      cases m with
      | zero => exact absurd rfl h
      | succ k => rfl
    | succ n' =>
      cases m with
      | zero => rfl
      | succ k => exact ih n' k (fun hc => h (by rw [hc]))

theorem pairwise_rel_get {α : Type} {R : α → α → Prop} (hsym : ∀ a b, R a b → R b a) :
    ∀ (l : List α), List.Pairwise R l →
      ∀ i j a b, i ≠ j → l.get? i = some a → l.get? j = some b → R a b := by
  intro l
  induction l with
  | nil => intro _ i j a b _ hi _; cases hi
  | cons x xs ih =>
    intro hpw i j a b hij hi hj
    rw [List.pairwise_cons] at hpw
    cases i with
    | zero =>
      cases hi
      cases j with
      | zero => exact absurd rfl hij
      | succ m => exact hpw.1 b (List.get?_mem hj)
    | succ n =>
      cases j with
      | zero =>
        cases hj
        exact hsym _ _ (hpw.1 a (List.get?_mem hi))
      | succ m =>
        exact ih hpw.2 n m a b (fun hc => hij (by rw [hc])) hi hj

theorem map_teams_set (l : List PairEntry) (idx : Nat) (e' : PairEntry)
    (h : ∀ e, l.get? idx = some e → e'.teams = e.teams) :
    (l.set idx e').map PairEntry.teams = l.map PairEntry.teams := by
  induction l generalizing idx with
  | nil => rfl
  | cons x xs ih =>
    cases idx with
    | zero =>
      simp only [List.set, List.map]
      rw [h x rfl]
    | succ n =>
      simp only [List.set, List.map]
      rw [ih n (fun e he => h e he)]

theorem pairsOf_remaining (gpp : Nat) :
    ∀ (l : List String), ∀ e ∈ pairsOf gpp l, e.remaining = gpp := by
  intro l
  induction l with
  | nil => intro e he; cases he
  | cons x xs ih =>
    intro e he
    rcases List.mem_append.mp he with h1 | h1
    · obtain ⟨y, _, hye⟩ := List.mem_map.mp h1
      rw [← hye]
    · exact ih e h1

theorem pairsOf_teams_mem (gpp : Nat) :
    ∀ (l : List String), ∀ e ∈ pairsOf gpp l, e.teams.1 ∈ l ∧ e.teams.2 ∈ l := by
  intro l
  induction l with
  | nil => intro e he; cases he
  | cons x xs ih =>
    intro e he
    rcases List.mem_append.mp he with h1 | h1
    · obtain ⟨y, hy, hye⟩ := List.mem_map.mp h1
      rw [← hye]
      exact ⟨List.mem_cons_self x xs, List.mem_cons_of_mem x hy⟩
    · obtain ⟨m1, m2⟩ := ih e h1
      exact ⟨List.mem_cons_of_mem x m1, List.mem_cons_of_mem x m2⟩

theorem pairsOf_pairwise (gpp : Nat) :
    ∀ (l : List String), l.Nodup →
      List.Pairwise (fun p q => ¬ sameSet p q) ((pairsOf gpp l).map PairEntry.teams) := by
  intro l
  induction l with
  | nil => intro _; exact List.Pairwise.nil
  | cons x xs ih =>
    intro hnd
    rw [List.nodup_cons] at hnd
    have hrw : (pairsOf gpp (x :: xs)).map PairEntry.teams =
        (xs.map (fun y =>
          ({ teams := (x, y), remaining := gpp, homeToggle := 0 } : PairEntry))).map
            PairEntry.teams ++ (pairsOf gpp xs).map PairEntry.teams := by
      rw [pairsOf, List.map_append]
    rw [hrw, List.pairwise_append]
    refine ⟨?_, ih hnd.2, ?_⟩
    · rw [List.map_map, List.pairwise_map]
      refine List.Pairwise.imp ?_ hnd.2
      intro y1 y2 hne hss
      dsimp only [Function.comp, sameSet] at hss
      rcases hss with ⟨_, h2⟩ | ⟨h1, h2⟩
      · exact hne h2
      · exact hne (h2.trans h1)
    · intro p hp q hq
      rw [List.map_map] at hp
      obtain ⟨y, hy, hye⟩ := List.mem_map.mp hp
      obtain ⟨e, he, hqe⟩ := List.mem_map.mp hq
      obtain ⟨m1, m2⟩ := pairsOf_teams_mem gpp xs e he
      intro hss
      rw [← hye, ← hqe] at hss
      dsimp only [Function.comp, sameSet] at hss
      rcases hss with ⟨h1, _⟩ | ⟨h1, _⟩
      · exact hnd.1 (h1 ▸ m1)
      · exact hnd.1 (h1 ▸ m2)

theorem pairsOf_covers (gpp : Nat) :
    ∀ (l : List String) (a b : String), a ∈ l → b ∈ l → a ≠ b →
      ∃ e ∈ pairsOf gpp l, sameSet e.teams (a, b) := by
  intro l
  induction l with
  | nil => intro a b ha _ _; cases ha
  | cons x xs ih =>
    intro a b ha hb hab
    by_cases hax : a = x
    · have hbxs : b ∈ xs := by
        rcases List.mem_cons.mp hb with h1 | h1
        · exact absurd (hax.trans h1.symm) hab
        · exact h1
      refine ⟨{ teams := (x, b), remaining := gpp, homeToggle := 0 }, ?_, ?_⟩
      · exact List.mem_append.mpr (Or.inl (List.mem_map.mpr ⟨b, hbxs, rfl⟩))
      · exact Or.inl ⟨hax.symm, rfl⟩
    · by_cases hbx : b = x
      · have haxs : a ∈ xs := by
          rcases List.mem_cons.mp ha with h1 | h1
          · exact absurd h1 hax
          · exact h1
        refine ⟨{ teams := (x, a), remaining := gpp, homeToggle := 0 }, ?_, ?_⟩
        · exact List.mem_append.mpr (Or.inl (List.mem_map.mpr ⟨a, haxs, rfl⟩))
        · exact Or.inr ⟨hbx.symm, rfl⟩
      · have haxs : a ∈ xs := by
          rcases List.mem_cons.mp ha with h1 | h1
          · exact absurd h1 hax
          · exact h1
        have hbxs : b ∈ xs := by
          rcases List.mem_cons.mp hb with h1 | h1
          · exact absurd h1 hbx
          · exact h1
        obtain ⟨e, he, hss⟩ := ih a b haxs hbxs hab
        exact ⟨e, List.mem_append.mpr (Or.inr he), hss⟩

theorem schedLoop_ok_pairs (args : TryArgs) (minT maxT : Nat)
    (allLocked : Option (List String)) (hwf : locksWF args.lockRequirements)
    (slots : List Slot) :
    ∀ (i : Nat) (st : GenState) (games : List Game) (stats : Stats) (ha : HACounts),
      (∀ e ∈ st.pairs, e.teams.1 ≠ e.teams.2) →
      List.Pairwise (fun p q => ¬ sameSet p q) (st.pairs.map PairEntry.teams) →
      (∀ (j : Nat) (e : PairEntry), st.pairs.get? j = some e →
        e.remaining + gamesBetween st.assignments e.teams.1 e.teams.2 =
          args.gamesPerPair) →
      schedLoop args minT maxT allLocked slots i st = TryResult.ok games stats ha →
      ∀ t ∈ st.pairs.map PairEntry.teams,
        gamesBetween games t.1 t.2 = args.gamesPerPair := by
  induction slots with
  | nil =>
    intro i st games stats ha hne hpw hcnt hok t ht
    rw [schedLoop] at hok
    split at hok
    · rename_i hempty
      cases hok
      obtain ⟨e, he, hte⟩ := List.mem_map.mp ht
      obtain ⟨j, hj⟩ := List.mem_iff_get?.mp he
      have h0 : e.remaining = 0 := by
        have h1 : st.pairs.filter (fun e => e.remaining > 0) = [] :=
          List.isEmpty_iff.mp hempty
        have h2 := List.filter_eq_nil_iff.mp h1 e he
        simpa using h2
      have hc := hcnt j e hj
      rw [← hte]
      omega
    · cases hok
  | cons slot rest ih =>
    intro i st games stats ha hne hpw hcnt hok
    rw [schedLoop] at hok
    dsimp only at hok
    split at hok
    · cases hok
    · rename_i idx heq
      set lockO := lookupNat args.lockRequirements (slot.index.getD i) with hlockO
      set ctx : SelectCtx :=
        { isTargetSlot := slot.slot == args.targetSlot,
          teamTargetCounts := st.teamTargetCounts, minTarget := minT,
          maxTarget := maxT, teamGamesRemaining := st.teamGamesRemaining,
          requiredTeams := Option.map (fun l => l.requiredTeams) lockO,
          teamsPlayedToday := lookupD st.teamsByDate slot.date [],
          allLockedTeams := allLocked,
          teamsThisWeek := lookupD st.teamsByWeek (getWeekKey slot.date) [] } with hctx
      set entry : PairEntry := st.pairs.getD idx default with hentry
      set selr : Nat := (selectPair st.pairs ctx st.rng).rng with hselr
      set g : Game := (assignGame slot entry selr lockO st.ha.home st.ha.away).1 with hg
      obtain ⟨hlt, hcl⟩ := selectPair_choice_spec st.pairs ctx st.rng idx heq
      have hget : st.pairs.get? idx = some entry := get?_eq_some_getD st.pairs idx hlt
      have hclass : classify ctx entry = none := hcl entry hget
      have hmem : entry ∈ st.pairs := by
        rw [hentry]
        exact getD_mem_of_lt st.pairs idx default hlt
      have hne_e : entry.teams.1 ≠ entry.teams.2 := hne entry hmem
      have hfacts := classify_none_facts ctx entry hclass
      have hlockwf : ∀ l, lockO = some l → lockWF l ∧
          ∀ t ∈ l.requiredTeams, t = entry.teams.1 ∨ t = entry.teams.2 := by
        intro l hl
        refine ⟨hwf (slot.index.getD i, l) (lookupNat_mem (hlockO ▸ hl)), ?_⟩
        intro t ht
        apply hfacts.1
        show t ∈ (Option.map (fun l => l.requiredTeams) lockO).getD []
        rw [hl]
        simpa using ht
      have hperm : (g.away = entry.teams.1 ∧ g.home = entry.teams.2) ∨
          (g.away = entry.teams.2 ∧ g.home = entry.teams.1) := by
        rw [hg]
        exact assignGame_perm slot entry selr lockO st.ha.home st.ha.away hlockwf hne_e
      have hrem0 : entry.remaining ≠ 0 := classify_none_remaining ctx entry hclass
      have hsame_g : sameSet (g.away, g.home) entry.teams := by
        rcases hperm with ⟨h1, h2⟩ | ⟨h1, h2⟩
        · exact Or.inl ⟨h1, h2⟩
        · exact Or.inr ⟨h1, h2⟩
      have hmapeq : (st.pairs.set idx
          { entry with remaining := entry.remaining - 1 }).map PairEntry.teams =
          st.pairs.map PairEntry.teams := by
        apply map_teams_set
        intro e he
        rw [hget] at he
        cases he
        rfl
      intro t ht
      refine ih (i + 1) _ games stats ha ?_ ?_ ?_ hok t ?_
      · intro e' he'
        dsimp only at he'
        rcases List.mem_or_eq_of_mem_set he' with h1 | h1
        · exact hne e' h1
        · rw [h1]
          exact hne_e
      · dsimp only
        rw [hmapeq]
        exact hpw
      · intro j e' hj
        dsimp only at hj ⊢
        rw [gamesBetween_snoc]
        by_cases hji : j = idx
        · subst hji
          rw [get?_set_same st.pairs j _ hlt] at hj
          cases hj
          dsimp only
          have hc := hcnt j entry hget
          split
          · omega
          · rename_i hcc
            exact absurd hsame_g hcc
        · rw [get?_set_other st.pairs idx j _ (fun hc => hji hc.symm)] at hj
          have hj1 : (st.pairs.map PairEntry.teams).get? j = some e'.teams := by
            rw [List.get?_map, hj]
            rfl
          have hj2 : (st.pairs.map PairEntry.teams).get? idx = some entry.teams := by
            rw [List.get?_map, hget]
            rfl
          have hdist : ¬ sameSet e'.teams entry.teams :=
            pairwise_rel_get (fun a b hab hss => hab (sameSet_symm hss))
              (st.pairs.map PairEntry.teams) hpw j idx e'.teams entry.teams hji hj1 hj2
          have hc := hcnt j e' hj
          split
          · rename_i hcc
            exact absurd (sameSet_trans (sameSet_symm hcc) hsame_g) hdist
          · omega
      · dsimp only
        rw [hmapeq]
        exact ht

def c1args : TryArgs :=
  { teams := ["A", "B"], slots := [mkSlot "06/02/2025" "X"],
    targetSlot := "T", seed := "s-0", gamesPerPair := 1,
    lockRequirements :=
      [(0, { requiredTeams := ["A", "B"], away := some "C", home := some "D" })] }

/-- The concrete instance refuting C1 as universally stated: a lock
whose explicit sides name teams outside its pair list makes the attempt
succeed while the A-B matchup is played zero times instead of
`gamesPerPair = 1` (the C-vs-D game decrements the A-B ledger entry). -/
theorem tryGenerateSchedule_pair_count_counterexample :
    (tryGenerateSchedule c1args).success = true ∧
    "A" ∈ c1args.teams ∧ "B" ∈ c1args.teams ∧ ("A" : String) ≠ "B" ∧
    c1args.gamesPerPair = 1 ∧
    gamesBetween (tryGenerateSchedule c1args).games "A" "B" = 0 := by
  refine ⟨?_, ?_, ?_, ?_, ?_, ?_⟩ <;> decide

/-- **C1** (amended): on inputs with pairwise-distinct team names and
well-formed locks (explicit sides among the lock's required teams,
distinct when both present), every successful `tryGenerateSchedule`
result contains each unordered pair of distinct teams as opponents
exactly `gamesPerPair` times.  As literally stated over every input the
claim is false — `tryGenerateSchedule_pair_count_counterexample`
exhibits a corrupt lock under which a pair meets zero times — because a
lock's explicit sides are copied into the game unchecked while the
selected pair's ledger is decremented. -/
theorem tryGenerateSchedule_pair_counts (args : TryArgs) (games : List Game)
    (stats : Stats) (ha : HACounts)
    (hnd : args.teams.Nodup) (hwf : locksWF args.lockRequirements)
    (hok : tryGenerateSchedule args = TryResult.ok games stats ha) :
    ∀ a b, a ∈ args.teams → b ∈ args.teams → a ≠ b →
      gamesBetween games a b = args.gamesPerPair := by
  intro a b haM hbM hab
  have hperm := List.perm_insertionSort (fun x y => strLeB x y = true) args.teams
  have hndS : (List.insertionSort (fun x y => strLeB x y = true) args.teams).Nodup :=
    (hperm.nodup_iff).mpr hnd
  obtain ⟨e, heM, hss⟩ := pairsOf_covers args.gamesPerPair _ a b
    (hperm.mem_iff.mpr haM) (hperm.mem_iff.mpr hbM) hab
  unfold tryGenerateSchedule at hok
  rw [← gamesBetween_sameSet games e.teams a b hss]
  refine schedLoop_ok_pairs args _ _ _ hwf args.slots 0 _ games stats ha
    ?_ ?_ ?_ hok e.teams ?_
  · intro e' he'
    exact pairsOf_teams_ne args.gamesPerPair _ hndS e' he'
  · exact pairsOf_pairwise args.gamesPerPair _ hndS
  · intro j e' hj
    have hr := pairsOf_remaining args.gamesPerPair _ e' (List.get?_mem hj)
    simp [gamesBetween, hr]
  · exact List.mem_map_of_mem PairEntry.teams heM

/-- Witness for the amended C1 at a concrete input: two distinct teams,
no locks; the attempt succeeds and its single game realizes the A-B pair
exactly `gamesPerPair = 1` times. -/
theorem tryGenerateSchedule_pair_counts_witness :
    (["A", "B"] : List String).Nodup ∧ locksWF ([] : List (Nat × Lock)) ∧
    ("A" : String) ≠ "B" ∧
    gamesBetween [{ date := "06/02/2025", slot := "X", away := "B", home := "A" }]
      "A" "B" = 1 :=
  ⟨by decide, fun p hp => absurd hp (List.not_mem_nil p), by decide,
    tryGenerateSchedule_pair_counts
      { teams := ["A", "B"], slots := [mkSlot "06/02/2025" "X"],
        targetSlot := "T", seed := "w2-0", gamesPerPair := 1 }
      [{ date := "06/02/2025", slot := "X", away := "B", home := "A" }]
      { targetSlot := "T", minTarget := 0, maxTarget := 0,
        targetCounts := [("A", 0), ("B", 0)] }
      { home := [("A", 1), ("B", 0)], away := [("A", 0), ("B", 1)] }
      (by decide) (fun p hp => absurd hp (List.not_mem_nil p)) (by decide)
      "A" "B" (by decide) (by decide) (by decide)⟩


/-! ## C4: the `selectPair` scoring formula and tie-breaking -/

theorem needScore_cast (c m : Nat) : (needScore c m : ℚ) = max 0 ((m : ℚ) - (c : ℚ)) := by
  unfold needScore
  rcases Nat.le_total m c with h | h
  · rw [Nat.sub_eq_zero_of_le h, max_eq_left]
    · simp
    · have : (m : ℚ) ≤ (c : ℚ) := by exact_mod_cast h
      linarith
  · rw [max_eq_right]
    · exact Nat.cast_sub h
    · have : (c : ℚ) ≤ (m : ℚ) := by exact_mod_cast h
      linarith

/-- The score formula exactly as the specification states it, over exact
rationals. -/
def specScoreC4 (ctx : SelectCtx) (e : PairEntry) (r : Nat) : ℚ :=
  let teamA := e.teams.1
  let teamB := e.teams.2
  let deficitA : ℚ :=
    max 0 ((ctx.minTarget : ℚ) - ((lookupD ctx.teamTargetCounts teamA 0 : Nat) : ℚ))
  let deficitB : ℚ :=
    max 0 ((ctx.minTarget : ℚ) - ((lookupD ctx.teamTargetCounts teamB 0 : Nat) : ℚ))
  let targetTerm : ℚ :=
    if ctx.isTargetSlot then 3 * (deficitA + deficitB)
    else -(1/5) * (deficitA + deficitB)
  let gamesLeftTerm : ℚ :=
    (1/50) * (((lookupD ctx.teamGamesRemaining teamA 0 : Int) : ℚ) +
      ((lookupD ctx.teamGamesRemaining teamB 0 : Int) : ℚ))
  let weeklyPenalty : ℚ := -2 * (((lookupD ctx.teamsThisWeek teamA 0 : Nat) : ℚ) +
    ((lookupD ctx.teamsThisWeek teamB 0 : Nat) : ℚ))
  let jitter : ℚ := deviate r * (1/20)
  (e.remaining : ℚ) + targetTerm + gamesLeftTerm + weeklyPenalty + jitter

theorem pairScoreNum_eq_spec (ctx : SelectCtx) (e : PairEntry) (r : Nat) :
    (pairScoreNum ctx e r : ℚ) = specScoreC4 ctx e r * (scoreDen : ℚ) := by
  unfold pairScoreNum specScoreC4 scoreDen deviate
  dsimp only
  rw [← needScore_cast (lookupD ctx.teamTargetCounts e.teams.1 0) ctx.minTarget,
    ← needScore_cast (lookupD ctx.teamTargetCounts e.teams.2 0) ctx.minTarget]
  have hp : ((pow32 : ℚ)) ≠ 0 := by norm_num [pow32]
  by_cases ht : ctx.isTargetSlot
  · simp only [ht, if_true]
    push_cast
    field_simp
    ring
  · simp only [ht, if_false]
    push_cast
    field_simp
    ring

/-- The per-pair scored list of one `selectPair` run: index and scaled
score of every pair surviving the eligibility filter, threading the
generator exactly as `selGo` does, together with the generator state
after the scan. -/
def selScores (ctx : SelectCtx) : List (Nat × PairEntry) → Nat → List (Nat × ℤ) × Nat
  | [], r => ([], r)
  | (i, e) :: rest, r =>
    match classify ctx e with
    | some _ => selScores ctx rest r
    | none =>
      let step := rngNext r
      let res := selScores ctx rest step.1
      ((i, pairScoreNum ctx e step.2) :: res.1, res.2)

/-- The pure best-tracking part of `selGo`'s fold, over an already
scored list. -/
def mergeStep : Option ℤ → List Nat → List (Nat × ℤ) → Option ℤ × List Nat
  | b, B, [] => (b, B)
  | b, B, (i, s) :: rest =>
    if scoreGtB s b then mergeStep (some s) [i] rest
    else if scoreEqB s b then mergeStep b (B ++ [i]) rest
    else mergeStep b B rest

/-- Running maximum of the scores, seeded with `m`. -/
def runMax (m : ℤ) : List (Nat × ℤ) → ℤ
  | [] => m
  | (_, s) :: rest => runMax (max m s) rest

/-- Highest score of a scored list (`none` when empty). -/
def specBestZ : List (Nat × ℤ) → Option ℤ
  | [] => none
  | (_, s) :: rest => some (runMax s rest)

/-- Indices of the pairs achieving the highest score, in scan order. -/
def specTiesZ (sc : List (Nat × ℤ)) : List Nat :=
  match specBestZ sc with
  | none => []
  | some m => (sc.filter (fun p => p.2 == m)).map Prod.fst

theorem runMax_ge (sc : List (Nat × ℤ)) : ∀ m : ℤ, m ≤ runMax m sc := by
  induction sc with
  | nil => intro m; exact le_refl m
  | cons p rest ih =>
    intro m
    exact le_trans (le_max_left m p.2) (ih (max m p.2))

theorem runMax_max (sc : List (Nat × ℤ)) :
    ∀ m s : ℤ, runMax (max m s) sc = max m (runMax s sc) := by
  induction sc with
  | nil => intro m s; rfl
  | cons p rest ih =>
    intro m s
    show runMax (max (max m s) p.2) rest = max m (runMax (max s p.2) rest)
    rw [max_assoc, ih]

theorem mergeStep_some (sc : List (Nat × ℤ)) :
    ∀ (m : ℤ) (B : List Nat),
      mergeStep (some m) B sc =
        (some (runMax m sc),
          (if runMax m sc = m then B else []) ++
            (sc.filter (fun p => p.2 == runMax m sc)).map Prod.fst) := by
  induction sc with
  | nil =>
    intro m B
    simp [mergeStep, runMax]
  | cons p rest ih =>
    intro m B
    obtain ⟨i, s⟩ := p
    show mergeStep (some m) B ((i, s) :: rest) = _
    rw [mergeStep]
    rcases lt_trichotomy m s with hlt | heq | hgt
    · rw [if_pos (by simpa [scoreGtB] using hlt)]
      rw [ih s [i]]
      have hm : runMax m ((i, s) :: rest) = runMax s rest := by
        show runMax (max m s) rest = _
        rw [max_eq_right (le_of_lt hlt)]
      rw [hm]
      have hne : runMax s rest ≠ m :=
        fun hc => absurd (hc ▸ runMax_ge rest s) (not_le.mpr hlt)
      rw [if_neg hne, List.nil_append]
      have hfc : List.filter (fun p => p.2 == runMax s rest) ((i, s) :: rest) =
          (if s == runMax s rest then [(i, s)] else []) ++
            List.filter (fun p => p.2 == runMax s rest) rest := by
        rw [List.filter_cons]
        by_cases hb : (s == runMax s rest) = true
        · rw [if_pos hb, if_pos hb]
          rfl
        · rw [if_neg hb, if_neg hb]
          rfl
      rw [hfc, List.map_append]
      congr 1
      by_cases hb : s = runMax s rest
      · rw [if_pos (beq_iff_eq.mpr hb), if_pos hb.symm]
        rfl
      · rw [if_neg (fun hc => hb (beq_iff_eq.mp hc)), if_neg (fun hc => hb hc.symm)]
        rfl
    · subst heq
      rw [if_neg (by simp [scoreGtB]), if_pos (by simp [scoreEqB])]
      rw [ih m (B ++ [i])]
      have hm : runMax m ((i, m) :: rest) = runMax m rest := by
        show runMax (max m m) rest = _
        rw [max_self]
      rw [hm]
      have hfc : List.filter (fun p => p.2 == runMax m rest) ((i, m) :: rest) =
          (if m == runMax m rest then [(i, m)] else []) ++
            List.filter (fun p => p.2 == runMax m rest) rest := by
        rw [List.filter_cons]
        by_cases hb : (m == runMax m rest) = true
        · rw [if_pos hb, if_pos hb]
          rfl
        · rw [if_neg hb, if_neg hb]
          rfl
      rw [hfc, List.map_append]
      by_cases hrm : runMax m rest = m
      · rw [if_pos hrm, if_pos hrm, if_pos (beq_iff_eq.mpr hrm.symm)]
        simp only [List.map_cons, List.map_nil, ← List.append_assoc]
      · rw [if_neg hrm, if_neg hrm, if_neg (fun hc => hrm (beq_iff_eq.mp hc).symm)]
        rfl
    · rw [if_neg (by simpa [scoreGtB] using not_lt.mpr (le_of_lt hgt)),
        if_neg (by simpa [scoreEqB] using ne_of_lt hgt)]
      rw [ih m B]
      have hm : runMax m ((i, s) :: rest) = runMax m rest := by
        show runMax (max m s) rest = _
        rw [max_eq_left (le_of_lt hgt)]
      rw [hm]
      have hfc : List.filter (fun p => p.2 == runMax m rest) ((i, s) :: rest) =
          List.filter (fun p => p.2 == runMax m rest) rest := by
        rw [List.filter_cons]
        have hne : (s == runMax m rest) = false := by
          have : s ≠ runMax m rest :=
            fun hc => absurd (hc ▸ runMax_ge rest m) (not_le.mpr hgt)
          simp [this]
        rw [if_neg (by simp [hne])]
      rw [hfc]

theorem mergeStep_none (sc : List (Nat × ℤ)) :
    mergeStep none [] sc = (specBestZ sc, specTiesZ sc) := by
  cases sc with
  | nil => rfl
  | cons p rest =>
    obtain ⟨i, s⟩ := p
    show mergeStep none [] ((i, s) :: rest) = _
    rw [mergeStep]
    rw [if_pos (by simp [scoreGtB])]
    rw [mergeStep_some rest s [i]]
    unfold specTiesZ specBestZ
    dsimp only
    have hfc : List.filter (fun p => p.2 == runMax s rest) ((i, s) :: rest) =
        (if s == runMax s rest then [(i, s)] else []) ++
          List.filter (fun p => p.2 == runMax s rest) rest := by
      rw [List.filter_cons]
      by_cases hb : (s == runMax s rest) = true
      · rw [if_pos hb, if_pos hb]
        rfl
      · rw [if_neg hb, if_neg hb]
        rfl
    rw [hfc, List.map_append]
    congr 1
    by_cases hb : runMax s rest = s
    · rw [if_pos hb, if_pos (beq_iff_eq.mpr hb.symm)]
      rfl
    · rw [if_neg hb, if_neg (fun hc => hb (beq_iff_eq.mp hc).symm)]
      rfl

theorem selGo_decomp (ctx : SelectCtx) :
    ∀ (l : List (Nat × PairEntry)) (s : SelState),
      (selGo ctx l s).rng = (selScores ctx l s.rng).2 ∧
      (selGo ctx l s).bestScore =
        (mergeStep s.bestScore s.best (selScores ctx l s.rng).1).1 ∧
      (selGo ctx l s).best =
        (mergeStep s.bestScore s.best (selScores ctx l s.rng).1).2 := by
  intro l
  induction l with
  | nil =>
    intro s
    exact ⟨rfl, rfl, rfl⟩
  | cons p rest ih =>
    intro s
    obtain ⟨i, e⟩ := p
    rcases hc : classify ctx e with _ | r
    · simp only [selGo, selScores, hc]
      by_cases hgt : scoreGtB (pairScoreNum ctx e (rngNext s.rng).2) s.bestScore = true
      · rw [if_pos hgt]
        have hm : mergeStep s.bestScore s.best
            ((i, pairScoreNum ctx e (rngNext s.rng).2) ::
              (selScores ctx rest (rngNext s.rng).1).1) =
            mergeStep (some (pairScoreNum ctx e (rngNext s.rng).2)) [i]
              (selScores ctx rest (rngNext s.rng).1).1 := by
          rw [mergeStep, if_pos hgt]
        rw [hm]
        exact ih { bestScore := some (pairScoreNum ctx e (rngNext s.rng).2),
                   best := [i], rng := (rngNext s.rng).1, rej := s.rej }
      · rw [if_neg hgt]
        by_cases heq : scoreEqB (pairScoreNum ctx e (rngNext s.rng).2) s.bestScore = true
        · rw [if_pos heq]
          have hm : mergeStep s.bestScore s.best
              ((i, pairScoreNum ctx e (rngNext s.rng).2) ::
                (selScores ctx rest (rngNext s.rng).1).1) =
              mergeStep s.bestScore (s.best ++ [i])
                (selScores ctx rest (rngNext s.rng).1).1 := by
            rw [mergeStep, if_neg hgt, if_pos heq]
          rw [hm]
          exact ih { s with best := s.best ++ [i], rng := (rngNext s.rng).1 }
        · rw [if_neg heq]
          have hm : mergeStep s.bestScore s.best
              ((i, pairScoreNum ctx e (rngNext s.rng).2) ::
                (selScores ctx rest (rngNext s.rng).1).1) =
              mergeStep s.bestScore s.best
                (selScores ctx rest (rngNext s.rng).1).1 := by
            rw [mergeStep, if_neg hgt, if_neg heq]
          rw [hm]
          exact ih { s with rng := (rngNext s.rng).1 }
    · simp only [selGo, selScores, hc]
      exact ih { s with rej := bumpRej s.rej r }

theorem selectPair_choice_eq_ties (pairs : List PairEntry) (ctx : SelectCtx)
    (rng : Nat) :
    (selectPair pairs ctx rng).choice =
      (match specTiesZ (selScores ctx pairs.enum rng).1 with
       | [] => none
       | l => some (l.getD
           ((rngNext (selScores ctx pairs.enum rng).2).2 * l.length / pow32) 0)) := by
  unfold selectPair
  dsimp only
  obtain ⟨h1, h2, h3⟩ := selGo_decomp ctx pairs.enum
    { bestScore := none, best := [], rng := rng, rej := {} }
  rw [h3, h1]
  rw [show ({ bestScore := none, best := [], rng := rng, rej := {} } : SelState).rng
      = rng from rfl]
  rw [show ({ bestScore := none, best := [], rng := rng, rej := {} } : SelState).bestScore
      = none from rfl]
  rw [show ({ bestScore := none, best := [], rng := rng, rej := {} } : SelState).best
      = ([] : List Nat) from rfl]
  rw [mergeStep_none]
  rcases specTiesZ (selScores ctx pairs.enum rng).1 with _ | ⟨x, xs⟩
  · rfl
  · rfl

/-- The scored list as the specification words it: the claim's rational
score formula for every pair surviving the eligibility filter, threading
the generator in scan order. -/
def specScoredC4 (ctx : SelectCtx) : List (Nat × PairEntry) → Nat → List (Nat × ℚ) × Nat
  | [], r => ([], r)
  | (i, e) :: rest, r =>
    match classify ctx e with
    | some _ => specScoredC4 ctx rest r
    | none =>
      let step := rngNext r
      let res := specScoredC4 ctx rest step.1
      ((i, specScoreC4 ctx e step.2) :: res.1, res.2)

def runMaxQ (m : ℚ) : List (Nat × ℚ) → ℚ
  | [] => m
  | (_, s) :: rest => runMaxQ (max m s) rest

/-- Highest rational score of a scored list. -/
def specBestQ : List (Nat × ℚ) → Option ℚ
  | [] => none
  | (_, s) :: rest => some (runMaxQ s rest)

/-- Indices achieving the highest rational score, in scan order. -/
def specTiesQ (sc : List (Nat × ℚ)) : List Nat :=
  match specBestQ sc with
  | none => []
  | some m => (sc.filter (fun p => decide (p.2 = m))).map Prod.fst

/-- `selectPair` as the claim describes it: score the surviving pairs by
the specification formula, return the highest-scoring pair, breaking
exact ties uniformly by one further generator draw. -/
def specSelectPairC4 (pairs : List PairEntry) (ctx : SelectCtx) (rng : Nat) :
    Option Nat :=
  let sc := specScoredC4 ctx pairs.enum rng
  match specTiesQ sc.1 with
  | [] => none
  | l => some (l.getD ((rngNext sc.2).2 * l.length / pow32) 0)

theorem specScoredC4_eq (ctx : SelectCtx) :
    ∀ (l : List (Nat × PairEntry)) (r : Nat),
      (specScoredC4 ctx l r).1 =
        (selScores ctx l r).1.map (fun p => (p.1, ((p.2 : ℤ) : ℚ) / (scoreDen : ℚ))) ∧
      (specScoredC4 ctx l r).2 = (selScores ctx l r).2 := by
  intro l
  induction l with
  | nil => intro r; exact ⟨rfl, rfl⟩
  | cons p rest ih =>
    intro r
    obtain ⟨i, e⟩ := p
    rcases hc : classify ctx e with _ | rj
    · simp only [specScoredC4, selScores, hc]
      refine ⟨?_, (ih (rngNext r).1).2⟩
      rw [(ih (rngNext r).1).1]
      simp only [List.map_cons]
      congr 1
      have hden : (scoreDen : ℚ) ≠ 0 := by norm_num [scoreDen, pow32]
      have hsc : specScoreC4 ctx e (rngNext r).2 =
          ((pairScoreNum ctx e (rngNext r).2 : ℤ) : ℚ) / (scoreDen : ℚ) := by
        rw [eq_div_iff hden]
        exact (pairScoreNum_eq_spec ctx e (rngNext r).2).symm
      rw [hsc]
    · simp only [specScoredC4, selScores, hc]
      exact ih r

theorem runMaxQ_map (sc : List (Nat × ℤ)) :
    ∀ m : ℤ, runMaxQ ((m : ℚ) / (scoreDen : ℚ))
        (sc.map (fun p => (p.1, ((p.2 : ℤ) : ℚ) / (scoreDen : ℚ)))) =
      ((runMax m sc : ℤ) : ℚ) / (scoreDen : ℚ) := by
  induction sc with
  | nil => intro m; rfl
  | cons p rest ih =>
    intro m
    obtain ⟨i, s⟩ := p
    simp only [List.map_cons, runMaxQ, runMax]
    rw [← ih (max m s)]
    congr 1
    have hpos : (0 : ℚ) < (scoreDen : ℚ) := by norm_num [scoreDen, pow32]
    have hmono : Monotone (fun x : ℚ => x / (scoreDen : ℚ)) :=
      fun a b hab => (div_le_div_right hpos).mpr hab
    rw [Int.cast_max, hmono.map_max]

theorem filter_map_score (sc : List (Nat × ℤ)) (M : ℤ) :
    ((sc.map (fun p => (p.1, ((p.2 : ℤ) : ℚ) / (scoreDen : ℚ)))).filter
        (fun p => decide (p.2 = ((M : ℤ) : ℚ) / (scoreDen : ℚ)))).map Prod.fst =
      (sc.filter (fun p => p.2 == M)).map Prod.fst := by
  induction sc with
  | nil => rfl
  | cons p rest ih =>
    obtain ⟨i, s⟩ := p
    simp only [List.map_cons, List.filter_cons]
    have hiff : (decide (((s : ℤ) : ℚ) / (scoreDen : ℚ) =
        ((M : ℤ) : ℚ) / (scoreDen : ℚ))) = (s == M) := by
      by_cases h : s = M
      · simp [h]
      · have hden : (scoreDen : ℚ) ≠ 0 := by norm_num [scoreDen, pow32]
        have hne : ((s : ℤ) : ℚ) / (scoreDen : ℚ) ≠
            ((M : ℤ) : ℚ) / (scoreDen : ℚ) := by
          intro hc
          apply h
          have h2 : ((s : ℤ) : ℚ) = ((M : ℤ) : ℚ) :=
            (div_left_inj' hden).mp hc
          exact_mod_cast h2
        simp [hne, h]
    dsimp only
    rw [hiff]
    by_cases hb : (s == M) = true
    · rw [if_pos hb, if_pos hb]
      simp only [List.map_cons]
      rw [ih]
    · rw [if_neg hb, if_neg hb]
      exact ih

theorem specTiesQ_map (sc : List (Nat × ℤ)) :
    specTiesQ (sc.map (fun p => (p.1, ((p.2 : ℤ) : ℚ) / (scoreDen : ℚ)))) =
      specTiesZ sc := by
  cases sc with
  | nil => rfl
  | cons p rest =>
    obtain ⟨i, s⟩ := p
    unfold specTiesQ specTiesZ specBestQ specBestZ
    simp only [List.map_cons]
    rw [runMaxQ_map rest s]
    exact filter_map_score ((i, s) :: rest) (runMax s rest)

/-- **C4**: the score of every pair surviving `selectPair`'s
eligibility filter equals
`remaining + targetTerm + 0.02*(gamesLeftA + gamesLeftB)
  - 2.0*(weeklyCountA + weeklyCountB) + jitter` with
`targetTerm = 3*(deficitA + deficitB)` in the target slot and
`-0.2*(deficitA + deficitB)` otherwise,
`deficit = max(0, minTarget - targetCount)`, and `jitter` the next
generator deviate times `0.05` (first conjunct: the engine's exact
scaled-integer score equals the specification's rational formula times
the fixed positive denominator `scoreDen`); and the returned pair is one
with the highest score, exact ties broken uniformly by one further
generator draw (second conjunct: the selected index refines
`specSelectPairC4`, which scores by the specification formula, collects
the indices achieving the maximum, and picks `ties[floor(u*|ties|)]`). -/
theorem selectPair_score_and_choice_spec :
    (∀ (ctx : SelectCtx) (e : PairEntry) (r : Nat),
      (pairScoreNum ctx e r : ℚ) = specScoreC4 ctx e r * (scoreDen : ℚ)) ∧
    (∀ (pairs : List PairEntry) (ctx : SelectCtx) (rng : Nat),
      (selectPair pairs ctx rng).choice = specSelectPairC4 pairs ctx rng) := by
  refine ⟨pairScoreNum_eq_spec, ?_⟩
  intro pairs ctx rng
  rw [selectPair_choice_eq_ties]
  unfold specSelectPairC4
  dsimp only
  obtain ⟨h1, h2⟩ := specScoredC4_eq ctx pairs.enum rng
  rw [h1, h2, specTiesQ_map]
